import Mathlib

/-!
Verification development for the `pc-mac` assistant core
(`src/ccos_mac/claude_code/agents/perplexity.py`).

The Python source is shallowly embedded: the `PerplexityAPI` instance state
(`current_dir`, `_file_cache`) becomes an explicit `PState`, the host
filesystem becomes an explicit `FSNode` tree threaded through every
operation, and each handler method becomes a pure function returning the
`(text, is_command_result)` pair of the source together with the updated
filesystem and state.

Modelling conventions (each noted where used):
* absolute paths are lists of components (`[]` is the root `/`); the
  source's string paths map to components by splitting on `/`, and
  `os.path.normpath` becomes `normalize`;
* directory readability/traversability (`os.access(..., R_OK | X_OK)`,
  `os.listdir` permission failures) is a boolean on each directory node;
  symbolic links and per-entry `OSError`s are not modelled, and the
  filesystem is static during a single call (no concurrent mutation), so
  the source's defensive `except` branches that only a mid-call race can
  reach are unreachable here;
* Python string semantics (`str.split`, `str.lower`, `str.strip`, the
  `re` patterns) are embedded for the ASCII range, which covers every
  alias, pattern and message in the source;
* `list(set(...))` (CPython hash-ordered deduplication) is modelled by a
  `setOrder` parameter constrained to enumerate the distinct elements.
-/

namespace PlexCode

/-! ## Python string helpers (ASCII scope) -/

/-- Python whitespace as used by `str.split`, `str.strip` and `\s`
(ASCII scope). -/
def isSpaceCh (c : Char) : Bool :=
  c == ' ' || c == '\t' || c == '\n' || c == '\r' || c == '\x0b' || c == '\x0c'

/-- `\w` of Python `re` (ASCII scope): letters, digits, underscore. -/
def isWordCh (c : Char) : Bool :=
  c.isAlphanum || c == '_'

/-- The character class of the source's filename patterns: word characters
plus dot, slash and hyphen. -/
def isNameCh (c : Char) : Bool :=
  isWordCh c || c == '.' || c == '/' || c == '-'

/-- ASCII lower-casing of one character, as Python `str.lower` does on the
ASCII range, written out so every fact about it is a case split. -/
def pyLowerChar (c : Char) : Char :=
  match c with
  | 'A' => 'a' | 'B' => 'b' | 'C' => 'c' | 'D' => 'd' | 'E' => 'e' | 'F' => 'f'
  | 'G' => 'g' | 'H' => 'h' | 'I' => 'i' | 'J' => 'j' | 'K' => 'k' | 'L' => 'l'
  | 'M' => 'm' | 'N' => 'n' | 'O' => 'o' | 'P' => 'p' | 'Q' => 'q' | 'R' => 'r'
  | 'S' => 's' | 'T' => 't' | 'U' => 'u' | 'V' => 'v' | 'W' => 'w' | 'X' => 'x'
  | 'Y' => 'y' | 'Z' => 'z'
  | c => c

/-- Python `str.lower` (ASCII scope). -/
def pyLower (s : String) : String :=
  String.mk (s.toList.map pyLowerChar)

/-- Python `str.strip()`: drop leading and trailing whitespace. -/
def pyStrip (s : String) : String :=
  String.mk (((s.toList.dropWhile isSpaceCh).reverse.dropWhile isSpaceCh).reverse)

/-- Python `ch in hay` for a single character (the source's separator
checks), via the character list so that it evaluates in the kernel. -/
def containsChar (hay : String) (c : Char) : Bool :=
  hay.toList.contains c

/-- Lexicographic (code-point) string comparison on character lists, the
order Python `sorted` uses on `str`; over lists so that it evaluates in
the kernel. -/
def charListLe : List Char → List Char → Bool
  | [], _ => true
  | _ :: _, [] => false
  | a :: as, b :: bs => if a = b then charListLe as bs else decide (a < b)

/-- Python `a <= b` on strings. -/
def pyStrLe (a b : String) : Bool :=
  charListLe a.toList b.toList

/-- The propositional form of `pyStrLe`, for `List.insertionSort`. -/
def pyStrLeRel (a b : String) : Prop :=
  pyStrLe a b = true

instance : DecidableRel pyStrLeRel := fun _ _ => instDecidableEqBool _ _

/-- Python `sorted` on strings: a stable sort by `pyStrLeRel`; a stable
sort's output is determined by the comparator, so `insertionSort` agrees
with CPython's timsort. -/
def pySorted (l : List String) : List String :=
  List.insertionSort pyStrLeRel l

/-- `s.startswith(p)`, via character lists so that it evaluates in the
kernel. -/
def strStartsWith (s p : String) : Bool :=
  p.toList.isPrefixOf s.toList

/-- Python `s.split("/")` (and the component view of `os.path.join`),
via character lists so that it evaluates in the kernel. -/
def splitOnSlashAux : List Char → List Char → List String
  | [], acc => [String.mk acc.reverse]
  | c :: cs, acc =>
    if c = '/' then String.mk acc.reverse :: splitOnSlashAux cs []
    else splitOnSlashAux cs (c :: acc)

/-- Python `s.split("/")`. -/
def splitOnSlash (s : String) : List String :=
  splitOnSlashAux s.toList []

/-- Python `sub in hay` for strings: substring containment. -/
def strContains (hay sub : String) : Bool :=
  let h := hay.toList
  let s := sub.toList
  (List.range (h.length + 1)).any (fun i => s.isPrefixOf (h.drop i))

/-- Python `query.split(maxsplit=1)`: `[]` on all-whitespace input,
`[token]` when nothing but trailing whitespace follows the first token,
`[token, rest]` otherwise (the separator run after the token is consumed,
trailing whitespace of `rest` kept). -/
def pySplit1 (s : String) : List String :=
  let cs := s.toList.dropWhile isSpaceCh
  if cs.isEmpty then []
  else
    let tok := cs.takeWhile (fun c => !isSpaceCh c)
    let rest := (cs.dropWhile (fun c => !isSpaceCh c)).dropWhile isSpaceCh
    if rest.isEmpty then [String.mk tok] else [String.mk tok, String.mk rest]

/-! ## Filesystem model -/

/-- A node of the host filesystem: a regular file with its text content, or
a directory with a readability flag (modelling `os.access(d, R_OK | X_OK)`
and whether `os.listdir(d)` succeeds) and its named children. -/
inductive FSNode where
  | file (content : String) : FSNode
  | dir (readable : Bool) (children : List (String × FSNode)) : FSNode
deriving Repr

/-- First child of the given name, if any. -/
def lookupChild (cs : List (String × FSNode)) (n : String) : Option FSNode :=
  match cs with
  | [] => none
  | (m, ch) :: rest => if m = n then some ch else lookupChild rest n

/-- Walk an absolute path (list of components, already free of `.`/`..`)
down from the root node. -/
def FSNode.find : FSNode → List String → Option FSNode
  | n, [] => some n
  | FSNode.dir _ cs, c :: rest =>
    match lookupChild cs c with
    | some m => FSNode.find m rest
    | none => none
  | FSNode.file _, _ :: _ => none

/-- Whether the node is a directory (`os.path.isdir` on an existing path). -/
def FSNode.isDir : FSNode → Bool
  | FSNode.dir _ _ => true
  | FSNode.file _ => false

/-- `os.path.normpath` on the components of an absolute path: empty
components (from `//` or a trailing `/`) and `.` are dropped, `..` pops
the previous component (and is dropped at the root, as `normpath` does
for absolute paths). -/
def normalize (l : List String) : List String :=
  l.foldl
    (fun acc c =>
      if c = "" ∨ c = "." then acc
      else if c = ".." then acc.dropLast
      else acc ++ [c])
    []

/-- `os.path.join(cur, p)` followed by lexical resolution (no symlinks in
the model, so kernel path resolution agrees with `normpath`): an absolute
`p` replaces `cur`. -/
def pyJoin (cur : List String) (p : String) : List String :=
  if strStartsWith p "/" then normalize (splitOnSlash p)
  else normalize (cur ++ splitOnSlash p)

/-- Render a component path the way the source's `self.current_dir` string
reads. -/
def pathToString (p : List String) : String :=
  match p with
  | [] => "/"
  | _ => String.join (p.map (fun c => "/" ++ c))

/-- `os.path.exists` via lexical resolution. -/
def py_exists (fs : FSNode) (p : List String) : Bool :=
  (fs.find (normalize p)).isSome

/-- `os.path.isfile` via lexical resolution. -/
def py_isfile (fs : FSNode) (p : List String) : Bool :=
  match fs.find (normalize p) with
  | some (FSNode.file _) => true
  | _ => false

/-- Names of the immediate children of the directory at `p` (empty when
`p` is missing or a file). -/
def childNames (fs : FSNode) (p : List String) : List String :=
  match fs.find p with
  | some (FSNode.dir _ cs) => cs.map Prod.fst
  | _ => []

/-- Whether `p` names a directory that can be listed and traversed. -/
def readableDirAt (fs : FSNode) (p : List String) : Bool :=
  match fs.find p with
  | some (FSNode.dir r _) => r
  | _ => false

/-- Add child `(n, node)` to the directory at path `p` (the effect of
`Path(...).touch()` / `os.makedirs` for a separator-free name directly
under `p`). Unchanged when `p` does not lead to a directory. -/
def FSNode.insertAt : FSNode → List String → String → FSNode → FSNode
  | FSNode.dir r cs, [], n, node => FSNode.dir r (cs ++ [(n, node)])
  | FSNode.dir r cs, c :: p, n, node =>
    FSNode.dir r (cs.map (fun q =>
      (q.1, if q.1 = c then FSNode.insertAt q.2 p n node else q.2)))
  | FSNode.file c, _, _, _ => FSNode.file c

/-- Remove the child named `n` of the directory at path `p` (the effect of
`os.remove` / `os.rmdir` on a separator-free name directly under `p`). -/
def FSNode.removeAt : FSNode → List String → String → FSNode
  | FSNode.dir r cs, [], n => FSNode.dir r (cs.filter (fun q => q.1 ≠ n))
  | FSNode.dir r cs, c :: p, n =>
    FSNode.dir r (cs.map (fun q =>
      (q.1, if q.1 = c then FSNode.removeAt q.2 p n else q.2)))
  | FSNode.file c, _, _ => FSNode.file c

/-! ## The snapshot state -/

/-- One value of the source's `_file_cache` dict: `{'is_dir': ..,
'content': .., 'error': ..}` (the `error` key is only ever set by the
per-entry `OSError` branch, unreachable in the static model, but kept for
fidelity to `_get_file_content`'s check). -/
structure CacheEntry where
  is_dir : Bool
  content : Option String := none
  error : Option String := none
deriving Repr, DecidableEq

/-- The mutable state of `PerplexityAPI`: `self.current_dir` (components
of an absolute path) and `self._file_cache` (insertion-ordered dict as an
association list). -/
structure PState where
  current_dir : List String
  file_cache : List (String × CacheEntry)
deriving Repr

/-- Python `key in dict`. -/
def dictContains (d : List (String × CacheEntry)) (k : String) : Bool :=
  d.any (fun q => q.1 = k)

/-- Python `dict[key]` as an option. -/
def dictGet (d : List (String × CacheEntry)) (k : String) : Option CacheEntry :=
  (d.find? (fun q => q.1 = k)).map Prod.snd

/-- Python `dict[key] = v`: update in place when the key exists (keeping
its position), append otherwise. -/
def dictSet (d : List (String × CacheEntry)) (k : String) (v : CacheEntry) :
    List (String × CacheEntry) :=
  if dictContains d k then d.map (fun q => if q.1 = k then (k, v) else q)
  else d ++ [(k, v)]

/-- Python `del dict[key]`. -/
def dictDel (d : List (String × CacheEntry)) (k : String) :
    List (String × CacheEntry) :=
  d.filter (fun q => q.1 ≠ k)

/-- The keys of the cache, in insertion order. -/
def cacheKeys (d : List (String × CacheEntry)) : List String :=
  d.map Prod.fst

/-- `_update_file_cache`: clear and rebuild the cache from the immediate
children of `current_dir`; on a failure to list the directory itself
(missing, a file, or unreadable) store the single `.error` sentinel entry.
The per-entry `OSError` branch of the source cannot fire in the static
model. -/
def update_file_cache (fs : FSNode) (cur : List String) :
    List (String × CacheEntry) :=
  match fs.find cur with
  | some (FSNode.dir true cs) =>
    cs.map (fun q => (q.1, ({ is_dir := q.2.isDir, content := none } : CacheEntry)))
  | _ => [(".error", { is_dir := false, content := some "Cannot list directory" })]

/-! ## The tree rendering (`_build_tree`, `_handle_ls`) -/

/-- The connector glyph constants of the source. -/
def TREE_SPACE : String := "    "

/-- Vertical-bar continuation for non-last ancestors. -/
def TREE_BRANCH : String := "│   "

/-- Tee connector for a non-last sibling. -/
def TREE_TEE : String := "├── "

/-- Elbow connector for the last sibling. -/
def TREE_LAST : String := "└── "

/-- The `items` of one `_build_tree` call: names of the children, hidden
names dropped, sorted (Python `sorted` on strings, lexicographic). -/
def visibleSortedNames (cs : List (String × FSNode)) : List String :=
  pySorted ((cs.map Prod.fst).filter (fun n => !strStartsWith n "."))

/-- One line of `_build_tree`'s loop: connector by `i == count - 1`,
`os.path.isdir` looked up per name, directory marker suffix. -/
def tree_line (cs : List (String × FSNode)) (pre : String) (count i : Nat)
    (n : String) : String :=
  let connector := if i = count - 1 then TREE_LAST else TREE_TEE
  let is_dir := ((lookupChild cs n).map FSNode.isDir).getD false
  pre ++ connector ++ n ++ (if is_dir then "/" else "")

/-- `_build_tree(dir_path, prefix, level)` with the recursion depth made
an explicit structural argument so that the definition evaluates in the
kernel: the wrapper `build_tree` supplies `4 - level`, and the `is_dir
and level < 3` guard means the fuel can only run out (`fuel = 0` with
`level ≥ 4`) where the guard already forbids recursion, so the fuel never
cuts the recursion short. When the directory cannot be listed (missing, a
file, or unreadable — the source's `OSError` branch) the call yields a
single error marker line; otherwise one line per visible child in sorted
order, recursing into child directories while `level < 3`. -/
def build_tree_fuel : Nat → FSNode → String → Nat → List String
  | _, FSNode.file _, pre, _ => [pre ++ TREE_LAST ++ "[Error reading directory]"]
  | _, FSNode.dir false _, pre, _ => [pre ++ TREE_LAST ++ "[Error reading directory]"]
  | fuel, FSNode.dir true cs, pre, level =>
    let items := visibleSortedNames cs
    let count := items.length
    let descend : FSNode → String → List String :=
      match fuel with
      | 0 => fun _ _ => []
      | fuel + 1 => fun ch pre' => build_tree_fuel fuel ch pre' (level + 1)
    (items.enum.map (fun q =>
      let i := q.1
      let n := q.2
      let child := lookupChild cs n
      let is_dir := (child.map FSNode.isDir).getD false
      let sub :=
        if is_dir ∧ level < 3 then
          descend (child.getD (FSNode.file ""))
            (pre ++ (if i = count - 1 then TREE_SPACE else TREE_BRANCH))
        else []
      tree_line cs pre count i n :: sub)).flatten

/-- `_build_tree(dir_path, prefix, level)`. -/
def build_tree (node : FSNode) (pre : String) (level : Nat) : List String :=
  build_tree_fuel (4 - level) node pre level

/-- `_handle_ls`: render the tree rooted at `current_dir`. An empty line
list (readable directory with no visible children) yields the `(empty)`
text; the not-found / permission branches of the source are dead in the
model because an unlistable directory already produced the error marker
line. -/
def handle_ls (fs : FSNode) (st : PState) : String × Bool :=
  let tree_lines :=
    match fs.find st.current_dir with
    | some node => build_tree node "" 0
    | none => ["" ++ TREE_LAST ++ "[Error reading directory]"]
  if tree_lines.isEmpty then
    if !py_exists fs st.current_dir then
      ("Error: Current directory '" ++ pathToString st.current_dir ++ "' not found.", true)
    else if !readableDirAt fs st.current_dir then
      ("Error: Permission denied for '" ++ pathToString st.current_dir ++ "'", true)
    else (pathToString st.current_dir ++ " (empty)", true)
  else
    (pathToString st.current_dir ++ "\n" ++ String.intercalate "\n" tree_lines, true)

/-! ## Navigation and mutation handlers -/

/-- The resolution rules of `_handle_cd` for a non-empty argument: `..` is
`os.path.dirname(current_dir)`, `~`/`$HOME` the home directory, anything
else joined with `current_dir` when relative and passed through
`os.path.normpath`. -/
def resolve_cd (home : List String) (cur : List String) (path : String) :
    List String :=
  if path = ".." then cur.dropLast
  else if path = "~" ∨ path = "$HOME" then home
  else pyJoin cur path

/-- `_handle_cd`: usage error on an empty argument; `NotFound`,
`NotADirectory`, `PermissionDenied` checks on the resolved path leave the
state untouched; on success `current_dir` is set and the cache rebuilt.
The source's `except` rollback branch needs a filesystem change between
check and `os.chdir`, impossible in the static model. -/
def handle_cd (fs : FSNode) (home : List String) (st : PState)
    (path : String) : (String × Bool) × PState :=
  if path = "" then (("Usage: cd <directory>", true), st)
  else
    match fs.find (resolve_cd home st.current_dir path) with
    | none =>
      (("Directory not found: " ++ path ++ " (resolved to " ++
          pathToString (resolve_cd home st.current_dir path) ++ ")", true), st)
    | some (FSNode.file _) =>
      (("Not a directory: " ++ path ++ " (resolved to " ++
          pathToString (resolve_cd home st.current_dir path) ++ ")", true), st)
    | some (FSNode.dir false _) =>
      (("Permission denied: " ++ pathToString (resolve_cd home st.current_dir path),
        true), st)
    | some (FSNode.dir true _) =>
      (("", true),
       { current_dir := resolve_cd home st.current_dir path,
         file_cache := update_file_cache fs (resolve_cd home st.current_dir path) })

/-- `_handle_pwd`. -/
def handle_pwd (st : PState) : String × Bool :=
  (pathToString st.current_dir, true)

/-- `_handle_exit`. -/
def handle_exit : String × Bool :=
  ("exit", true)

/-- The static capability listing of `_handle_help`. -/
def helpText : String :=
  "Available Mac Commands:\n" ++
  "• help                     - Show this help message\n" ++
  "• exit/quit                - Exit the application\n" ++
  "• ls                       - List files in current directory\n" ++
  "• tree                     - Show directory structure in tree format\n" ++
  "• cd <dir>                 - Change directory (supports '..', '~', absolute paths)\n" ++
  "• pwd                      - Print working directory\n" ++
  "• touch <filename>         - Create an empty file\n" ++
  "• mkdir <dirname>          - Create a directory\n" ++
  "• rm <name>               - Remove a file or empty directory\n\n" ++
  "Natural Language:\n" ++
  "• Use phrases like:\n" ++
  "  - 'list files'\n" ++
  "  - 'show directory tree'\n" ++
  "  - 'go to ~/Documents'\n" ++
  "  - 'create file test.py'\n" ++
  "  - 'make directory src'\n" ++
  "  - 'delete file.txt'\n\n" ++
  "For AI queries:\n" ++
  "• Ask about code ('explain cli.py'), request explanations, analysis, or generation."

/-- `_handle_help`. -/
def handle_help : String × Bool :=
  (helpText, true)

/-- The name-safety guard shared by `_handle_create_file` and
`_handle_mkdir`: a `..` substring or a path separator. -/
def invalidCreateName (name : String) : Bool :=
  strContains name ".." || containsChar name '/' || containsChar name '\\'

/-- `_handle_create_file`: usage error, name-safety rejection,
`AlreadyExists` check, then `Path(filepath).touch()` plus an optimistic
cache insert (no full refresh). The `OSError` branch is unreachable in
the static model. -/
def handle_create_file (fs : FSNode) (st : PState) (filename : String) :
    (String × Bool) × FSNode × PState :=
  if filename = "" then (("Usage: create <filename>", true), fs, st)
  else if invalidCreateName filename then
    (("Invalid characters or path components in filename: " ++ filename, true), fs, st)
  else if py_exists fs (st.current_dir ++ [filename]) then
    (("File or directory already exists: " ++ filename, true), fs, st)
  else
    (("File created: " ++ filename, true),
     fs.insertAt st.current_dir filename (FSNode.file ""),
     { st with
       file_cache := dictSet st.file_cache filename { is_dir := false, content := some "" } })

/-- `_handle_mkdir`: like `handle_create_file` with `os.makedirs` and a
directory cache entry. -/
def handle_mkdir (fs : FSNode) (st : PState) (dirname : String) :
    (String × Bool) × FSNode × PState :=
  if dirname = "" then (("Usage: mkdir <dirname>", true), fs, st)
  else if invalidCreateName dirname then
    (("Invalid characters or path components in dirname: " ++ dirname, true), fs, st)
  else if py_exists fs (st.current_dir ++ [dirname]) then
    (("File or directory already exists: " ++ dirname, true), fs, st)
  else
    (("Directory created: " ++ dirname, true),
     fs.insertAt st.current_dir dirname (FSNode.dir true []),
     { st with
       file_cache := dictSet st.file_cache dirname { is_dir := true, content := none } })

/-- `_handle_rm`: usage error, name-safety rejection (which additionally
rejects the literal `.`), `NotFound`, file removal, empty-directory
removal, `NotEmpty`. The broken-symlink branch has no counterpart in the
symlink-free model; `os.listdir` failing on an unreadable target directory
lands in the source's `OSError` handler, modelled by the error text
branch. -/
def handle_rm (fs : FSNode) (st : PState) (name : String) :
    (String × Bool) × FSNode × PState :=
  if name = "" then (("Usage: rm <file_or_empty_dir_name>", true), fs, st)
  else if strContains name ".." || name = "." || containsChar name '/' || containsChar name '\\' then
    (("Invalid characters or path components in name: " ++ name ++
      ". Cannot delete relative paths.", true), fs, st)
  else
    match fs.find (normalize (st.current_dir ++ [name])) with
    | none => (("File or directory not found: " ++ name, true), fs, st)
    | some (FSNode.file _) =>
      (("Removed file: " ++ name, true),
       fs.removeAt st.current_dir name,
       { st with file_cache := dictDel st.file_cache name })
    | some (FSNode.dir r cs) =>
      if !r then (("Error removing '" ++ name ++ "': [OSError]", true), fs, st)
      else if cs.isEmpty then
        (("Removed empty directory: " ++ name, true),
         fs.removeAt st.current_dir name,
         { st with file_cache := dictDel st.file_cache name })
      else
        (("Directory not empty: " ++ name ++ ". Use specific tool for recursive removal.",
          true), fs, st)

/-! ## The filename pattern and `_find_file_references`

The source scans the query with
`re.findall` of one group: one or more name characters, a literal dot,
one or more word characters. A backtracking match at a position lies
inside the maximal run of name characters starting there: the dot of the
match is the last dot of that run that is both preceded by at least one
run character and followed by a word character, and the extension part is
the maximal word-character run after that dot. `re.findall` scans left to
right, emitting non-overlapping matches and advancing by one character
when no match starts at the current position. -/

/-- Index of the last character of `run` that is a dot with at least one
character before it and a word character right after it (the dot chosen by
the greedy first segment of the pattern). -/
def lastDotIdx (run : List Char) : Option Nat :=
  (List.range run.length).foldl
    (fun acc d =>
      if 1 ≤ d ∧ run.get? d = some '.' ∧ (run.get? (d + 1)).any isWordCh then some d
      else acc)
    none

/-- Length of the filename-pattern match starting exactly at the head of
`l`, if any. -/
def findMatchAt (l : List Char) : Option Nat :=
  let run := l.takeWhile isNameCh
  match lastDotIdx run with
  | none => none
  | some d => some (d + 1 + ((run.drop (d + 1)).takeWhile isWordCh).length)

/-- The scan loop of `re.findall` (fuel is the remaining length, enough
because every step consumes at least one character). -/
def findallAux (fuel : Nat) (l : List Char) : List String :=
  match fuel with
  | 0 => []
  | fuel + 1 =>
    match l with
    | [] => []
    | c :: cs =>
      match findMatchAt (c :: cs) with
      | some len => String.mk ((c :: cs).take len) :: findallAux fuel ((c :: cs).drop len)
      | none => findallAux fuel cs

/-- `re.findall` of the source's filename pattern over the query text. -/
def py_findall (q : String) : List String :=
  findallAux q.toList.length q.toList

/-- First-seen-order deduplication: the distinct elements of `l` in order
of first occurrence. -/
def dedupFirstSeen (l : List String) : List String :=
  l.foldl (fun acc x => if x ∈ acc then acc else acc ++ [x]) []

/-- A model of CPython's `list(set(l))`: some enumeration of the distinct
elements of `l`. The enumeration is hash-ordered — deterministic within
one interpreter process but not the first-seen order — so it is a
parameter constrained by `admissibleSetOrder`. -/
def admissibleSetOrder (f : List String → List String) : Prop :=
  ∀ l : List String, (f l).Perm (dedupFirstSeen l)

/-- The per-candidate body of `_find_file_references`: a known
non-directory cache entry is kept; otherwise an existing regular file
under `current_dir` is registered into the cache (if unknown) and kept
when its (possibly just-created) entry is not a directory. -/
def ffr_step (fs : FSNode) (cur : List String)
    (acc : List String × List (String × CacheEntry)) (pf : String) :
    List String × List (String × CacheEntry) :=
  let (found, cache) := acc
  match dictGet cache pf with
  | some e =>
    if !e.is_dir then (found ++ [pf], cache)
    else if py_isfile fs (pyJoin cur pf) then
      -- `pf` is in the cache, so no registration happens; the entry is a
      -- directory, so it is not appended.
      (found, cache)
    else (found, cache)
  | none =>
    if py_isfile fs (pyJoin cur pf) then
      let cache' := dictSet cache pf { is_dir := false, content := none }
      -- the just-registered entry is never a directory
      (found ++ [pf], cache')
    else (found, cache)

/-- The scan loop of `_find_file_references`: `found_files` in scan order
(duplicates included) and the updated cache, before `list(set(...))`. -/
def ffr_raw (fs : FSNode) (st : PState) (query : String) :
    List String × List (String × CacheEntry) :=
  (py_findall query).foldl (ffr_step fs st.current_dir) ([], st.file_cache)

/-- `_find_file_references(query)`: scan for candidates, filter/register
them, and return `list(set(found_files))` under the given set
enumeration, together with the updated cache. -/
def find_file_references (setOrder : List String → List String)
    (fs : FSNode) (st : PState) (query : String) : List String × PState :=
  (setOrder (ffr_raw fs st query).1,
   { st with file_cache := (ffr_raw fs st query).2 })

/-- `_get_file_content`: `None` for unknown, directory or errored entries;
cached content returned directly; otherwise the file is read and the
content cached (files are always readable in the model, so the `except`
branch is dead). -/
def get_file_content (fs : FSNode) (st : PState) (filename : String) :
    Option String × PState :=
  match dictGet st.file_cache filename with
  | none => (none, st)
  | some e =>
    if e.is_dir || e.error.isSome then (none, st)
    else
      match e.content with
      | some c => (some c, st)
      | none =>
        match fs.find (pyJoin st.current_dir filename) with
        | some (FSNode.file c) =>
          (some c,
           { st with
             file_cache := dictSet st.file_cache filename { e with content := some c } })
        | _ => (none, st)

/-- The fixed model identifier of `_get_context`. -/
def contextModel : String := "sonar-reasoning-pro"

/-- The 1500-character cap of `_get_context` with its ellipsis marker. -/
def truncateContent (c : String) : String :=
  let max_len := 1500
  String.mk (c.toList.take max_len) ++ (if max_len < c.toList.length then "..." else "")

/-- The directory-listing lines of the context: the `.error` sentinel, the
`(empty)` marker, or one line per non-hidden cache key in sorted order
with a directory suffix. -/
def contextItems (cache : List (String × CacheEntry)) : List String :=
  if dictContains cache ".error" then
    ["- Error accessing directory: " ++
      (((dictGet cache ".error").bind CacheEntry.content).getD "")]
  else if cache.isEmpty then ["- (empty)"]
  else
    (((pySorted (cacheKeys cache)).filter
        (fun f => f ≠ ".error" ∧ !strStartsWith f "."))).map
      (fun f =>
        "- " ++ f ++ (if ((dictGet cache f).map CacheEntry.is_dir).getD false then "/" else ""))

/-- The per-file content block of the context. -/
def contextFileBlock (fs : FSNode) (st : PState) (file : String) :
    String × PState :=
  match get_file_content fs st file with
  | (some content, st') =>
    ("\n--- " ++ file ++ " ---\n" ++ truncateContent content ++ "\n--- End " ++ file ++ " ---",
     st')
  | (none, st') => ("\n(Could not read content of " ++ file ++ ")", st')

/-- `_get_context(query)`: the model id, the assembled system-context
string, the list `files_to_include = files[:2]` (exposed for the theorems
below), and the state after candidate registration and content caching. -/
def get_context (setOrder : List String → List String) (fs : FSNode)
    (st : PState) (query : String) :
    String × String × List String × PState :=
  let (files, st1) := find_file_references setOrder fs st query
  let items := contextItems st1.file_cache
  let head :=
    ["Current Directory: " ++ pathToString st1.current_dir,
     "Available files/dirs in current directory (excluding hidden):"] ++ items
  let files_to_include := files.take 2
  let (blockLines, st2) :=
    files_to_include.foldl
      (fun (acc : List String × PState) file =>
        let (b, st') := contextFileBlock fs acc.2 file
        (acc.1 ++ [b], st'))
      ([], st1)
  let parts :=
    if files_to_include.isEmpty then head
    else head ++ ["\nRelevant File Content:"] ++ blockLines
  (contextModel, String.intercalate "\n" parts, files_to_include, st2)

/-! ## The command router (`process_query`, steps 1 and 2)

Each natural-language pattern of the source is a `re.fullmatch` with
`IGNORECASE | DOTALL`.  The patterns fall into three shapes, each
hand-compiled into a decision procedure:
* a finite language (the listing / tree / pwd patterns): membership of the
  lower-cased input in the alternative set — note that the pwd pattern
  `what is the current directory` ends, in the source's raw string, with a
  double backslash and two question marks, which `re` reads as a
  lazily-optional literal backslash, not an optional question mark;
* a prefix followed by a lazy tail capture anchored at the end (the cd
  patterns): the capture is the whole remainder;
* a prefix (with optional words, tried in the regex engine's greedy
  backtracking order) followed by at least one whitespace and a final
  all-name-character group anchored at the end. -/

/-- Handlers of the `self.commands` table, `ls` and `tree` sharing
`_handle_ls`, the aliases sharing their targets. -/
inductive HandlerId where
  | helpH | exitH | lsH | cdH | pwdH | createH | mkdirH | rmH
deriving Repr, DecidableEq

/-- `self.commands`: alias → handler. -/
def commands : List (String × HandlerId) :=
  [("help", HandlerId.helpH), ("exit", HandlerId.exitH), ("quit", HandlerId.exitH),
   ("ls", HandlerId.lsH), ("tree", HandlerId.lsH), ("cd", HandlerId.cdH),
   ("pwd", HandlerId.pwdH), ("create", HandlerId.createH), ("touch", HandlerId.createH),
   ("mkdir", HandlerId.mkdirH), ("rm", HandlerId.rmH), ("delete", HandlerId.rmH),
   ("remove", HandlerId.rmH)]

/-- `self.commands.get(key)`. -/
def lookupCommand (k : String) : Option HandlerId :=
  (commands.find? (fun q => q.1 = k)).map Prod.snd

/-- The exact commands that consume the rest of the line as an argument. -/
def argCommands : List String :=
  ["cd", "create", "touch", "mkdir", "rm", "delete", "remove"]

/-- The natural-language command keys dispatched with the captured group. -/
def nlArgKeys : List String := ["cd", "create", "mkdir", "rm"]

/-- A finite-language pattern: full case-insensitive match against the
alternative set, no capture group. -/
def matchExactSet (alts : List String) (q : String) : Option (Option String) :=
  if pyLower q ∈ alts then some none else none

/-- A prefix-plus-lazy-tail pattern (the cd shapes): prefixes in greedy
order; the capture is the remainder of the original-case input. -/
def matchTailCapture (prefixes : List String) (q : String) :
    Option (Option String) :=
  prefixes.findSome? (fun p =>
    if strStartsWith (pyLower q) p then some (some (q.drop p.length)) else none)

/-- The final group of a name-argument pattern: the whole tail must be
name characters and non-empty. -/
def nameTail (l : List Char) : Option (List Char) :=
  if !l.isEmpty ∧ l.all isNameCh then some l else none

/-- After the first whitespace of `\s+`: skip further whitespace, then the
name group to the end of the input. -/
def skipWsName : List Char → Option (List Char)
  | [] => none
  | c :: cs => if isSpaceCh c then skipWsName cs else nameTail (c :: cs)

/-- `\s+` followed by the name group to the end. -/
def wsThenName : List Char → Option (List Char)
  | [] => none
  | c :: cs => if isSpaceCh c then skipWsName cs else none

/-- A name-argument pattern: each candidate prefix (greedy backtracking
order) is tried against the lower-cased input; the first one whose tail
parses as whitespace plus a name wins, the capture taken from the
original-case input. -/
def matchNameArg (prefixes : List String) (q : String) :
    Option (Option String) :=
  prefixes.findSome? (fun p =>
    if strStartsWith (pyLower q) p then
      (wsThenName (q.toList.drop p.length)).map (fun n => some (String.mk n))
    else none)

/-- The alternative set of the listing pattern
`list(?: files?)?(?: in(?: current)? directory)?`. -/
def nlListAlts : List String :=
  ["list", "list file", "list files",
   "list in directory", "list in current directory",
   "list file in directory", "list file in current directory",
   "list files in directory", "list files in current directory"]

/-- The greedy-order prefixes of
`create(?: a)?(?: new)? file(?: named)?`. -/
def createFilePrefixes : List String :=
  ["create a new file named", "create a new file",
   "create a file named", "create a file",
   "create new file named", "create new file",
   "create file named", "create file"]

/-- The greedy-order prefixes of
`create(?: a)?(?: new)? directory(?: named)?`. -/
def createDirPrefixes : List String :=
  ["create a new directory named", "create a new directory",
   "create a directory named", "create a directory",
   "create new directory named", "create new directory",
   "create directory named", "create directory"]

/-- `self.natural_commands`: the ordered pattern → command-key table. -/
def natural_commands : List ((String → Option (Option String)) × String) :=
  [(matchExactSet nlListAlts, "ls"),
   (matchExactSet ["show directory tree", "show tree"], "tree"),
   (matchTailCapture ["change directory to ", "change to "], "cd"),
   (matchTailCapture ["go to "], "cd"),
   (matchExactSet ["what is the current directory", "what is the current directory\\"], "pwd"),
   (matchExactSet ["show the current directory", "show current directory"], "pwd"),
   (matchNameArg createFilePrefixes, "create"),
   (matchNameArg ["touch"], "create"),
   (matchNameArg createDirPrefixes, "mkdir"),
   (matchNameArg ["make directory"], "mkdir"),
   (matchNameArg ["mkdir"], "mkdir"),
   (matchNameArg ["delete"], "rm"),
   (matchNameArg ["remove"], "rm"),
   (matchNameArg ["rm"], "rm")]

/-- A classified input line: a local command with its (optional) argument,
or a remote query carrying the raw text. -/
inductive ParsedCommand where
  | localCmd (h : HandlerId) (arg : Option String)
  | remote (text : String)
deriving Repr, DecidableEq

/-- Step 2 of `process_query`: the first natural-language pattern that
fully matches the raw input, with its command key, handler and captured
group (`self.commands.get(command_key)` folded in; it never misses for
the keys the table uses). -/
def nlMatch (q : String) : Option (String × HandlerId × Option String) :=
  natural_commands.findSome? (fun pk =>
    (pk.1 q).bind (fun g => (lookupCommand pk.2).map (fun h => (pk.2, h, g))))

/-- Steps 1 and 2 of `process_query`: exact command on the lower-cased
first token, then the natural-language patterns in table order, then the
remote-query fallback. `none` models the `IndexError` the source raises
at `cmd_parts[0]` when the input has no token (empty or all-whitespace
line). -/
def classify (q : String) : Option ParsedCommand :=
  match pySplit1 q with
  | [] => none
  | t :: rest =>
    let exact_cmd := pyLower t
    match lookupCommand exact_cmd with
    | some h =>
      if exact_cmd ∈ argCommands then
        let arg := match rest with | r :: _ => pyStrip r | [] => ""
        some (ParsedCommand.localCmd h (some arg))
      else some (ParsedCommand.localCmd h none)
    | none =>
      match nlMatch q with
      | some (key, h, g) =>
        if key ∈ nlArgKeys then
          some (ParsedCommand.localCmd h (some (pyStrip (g.getD ""))))
        else some (ParsedCommand.localCmd h none)
      | none => some (ParsedCommand.remote q)

/-! ## The remote client boundary and `process_query` -/

/-- The outcome of the `httpx` call in `process_query`, by the source's
`except` taxonomy: a 2xx response with its `choices` contents, a non-2xx
status, a timeout, a connection failure, or any other exception. -/
inductive ApiOutcome where
  | success (choices : List String)
  | httpStatusError (status : Nat) (body : String)
  | timeout
  | networkError (msg : String)
  | unexpected (msg : String)
deriving Repr, DecidableEq

/-- The `(response_string, is_command_result)` pair produced by the
remote branch of `process_query` for each outcome: remote answers carry
`False`, every failure text carries `True`. -/
def processRemote : ApiOutcome → String × Bool
  | ApiOutcome.success (c :: _) => (c, false)
  | ApiOutcome.success [] => ("No response received from the model.", false)
  | ApiOutcome.httpStatusError status body =>
    ("API error: " ++ toString status ++ " - " ++ body, true)
  | ApiOutcome.timeout =>
    ("Request timed out. The Perplexity API might be slow or unreachable.", true)
  | ApiOutcome.networkError m =>
    ("Network error: Could not connect to Perplexity API. " ++ m, true)
  | ApiOutcome.unexpected m =>
    ("Unexpected error during API call: " ++ m, true)

/-- Dispatch of a classified local command to its handler, mirroring the
call sites in `process_query` (zero-argument handlers never receive the
argument). -/
def run_handler (fs : FSNode) (home : List String) (st : PState) :
    HandlerId → Option String → (String × Bool) × FSNode × PState
  | HandlerId.helpH, _ => (handle_help, fs, st)
  | HandlerId.exitH, _ => (handle_exit, fs, st)
  | HandlerId.lsH, _ => (handle_ls fs st, fs, st)
  | HandlerId.pwdH, _ => (handle_pwd st, fs, st)
  | HandlerId.cdH, a =>
    let (r, st') := handle_cd fs home st (a.getD "")
    (r, fs, st')
  | HandlerId.createH, a => handle_create_file fs st (a.getD "")
  | HandlerId.mkdirH, a => handle_mkdir fs st (a.getD "")
  | HandlerId.rmH, a => handle_rm fs st (a.getD "")

/-- `process_query`: classify, run the local handler, or assemble context
and return the remote outcome's text. `none` is the `IndexError` of the
token-free input. The context is assembled (and the cache thereby
mutated) before the call, so it survives a failed call. -/
def process_query (setOrder : List String → List String) (fs : FSNode)
    (home : List String) (st : PState) (query : String)
    (outcome : ApiOutcome) : Option ((String × Bool) × FSNode × PState) :=
  match classify query with
  | none => none
  | some (ParsedCommand.localCmd h arg) => some (run_handler fs home st h arg)
  | some (ParsedCommand.remote q) =>
    let (_model, _context, _files, st') := get_context setOrder fs st q
    some (processRemote outcome, fs, st')

/-! ## Filesystem lemmas -/

/-- No duplicate child names along the path `p` (true of every real
directory tree; association lists can express duplicates, so the
roundtrip lemmas assume this). -/
def FSNode.pathNodup : FSNode → List String → Bool
  | _, [] => true
  | FSNode.dir _ cs, c :: p =>
    ((cs.map Prod.fst).count c ≤ 1 : Bool) &&
      (match lookupChild cs c with
       | some m => FSNode.pathNodup m p
       | none => true)
  | FSNode.file _, _ :: _ => true

/-- All components are real names: no empty, `.` or `..` component. -/
def validPath (l : List String) : Bool :=
  l.all (fun c => !(c == "" || c == "." || c == ".."))

theorem lookupChild_eq_none_iff (cs : List (String × FSNode)) (n : String) :
    lookupChild cs n = none ↔ ∀ q ∈ cs, q.1 ≠ n := by
  induction cs with
  | nil => simp [lookupChild]
  | cons q cs ih =>
    rw [lookupChild]
    by_cases h : q.1 = n
    · simp [h]
    · simp [h, ih]

theorem lookupChild_append (cs ds : List (String × FSNode)) (n : String) :
    lookupChild (cs ++ ds) n =
      (lookupChild cs n).or (lookupChild ds n) := by
  induction cs with
  | nil => simp [lookupChild]
  | cons q cs ih =>
    rw [List.cons_append, lookupChild, lookupChild]
    by_cases h : q.1 = n <;> simp [h, ih]

theorem lookupChild_map_update (f : FSNode → FSNode) (c : String) :
    ∀ (cs : List (String × FSNode)) (d : String),
      lookupChild (cs.map (fun q => (q.1, if q.1 = c then f q.2 else q.2))) d =
        if d = c then (lookupChild cs c).map f else lookupChild cs d := by
  intro cs d
  induction cs with
  | nil => by_cases h : d = c <;> simp [lookupChild, h]
  | cons q cs ih =>
    simp only [List.map_cons, lookupChild]
    by_cases hqd : q.1 = d
    · by_cases hc : d = c
      · subst hc; simp [hqd, ih]
      · have : ¬q.1 = c := fun he => hc (hqd ▸ he ▸ rfl)
        simp [hqd, hc, this]
    · by_cases hc : d = c
      · subst hc
        simp [hqd, ih]
      · simp [hqd, hc, ih]

/-- With at most one child named `c`, any member with key `c` is the one
`lookupChild` returns. -/
theorem lookupChild_unique (cs : List (String × FSNode)) (q : String × FSNode)
    (hcount : (cs.map Prod.fst).count q.1 ≤ 1) (hmem : q ∈ cs) :
    lookupChild cs q.1 = some q.2 := by
  induction cs with
  | nil => cases hmem
  | cons p cs ih =>
    rw [lookupChild]
    rcases List.mem_cons.mp hmem with rfl | hmem'
    · simp
    · by_cases hp : p.1 = q.1
      · exfalso
        have h1 : (1 : Nat) ≤ (cs.map Prod.fst).count q.1 :=
          List.one_le_count_iff.mpr (List.mem_map.mpr ⟨q, hmem', rfl⟩)
        have h2 : ((p :: cs).map Prod.fst).count q.1 =
            (cs.map Prod.fst).count q.1 + 1 := by
          simp [List.count_cons, hp]
        omega
      · simp [hp, ih (by
          rw [List.map_cons, List.count_cons] at hcount
          split at hcount <;> omega) hmem']

theorem find_append_singleton (fs : FSNode) (p : List String) (n : String) :
    fs.find (p ++ [n]) =
      (match fs.find p with
       | some (FSNode.dir _ cs) => lookupChild cs n
       | _ => none) := by
  induction p generalizing fs with
  | nil =>
    cases fs with
    | file c => simp [FSNode.find]
    | dir r cs =>
      simp only [List.nil_append, FSNode.find]
      cases lookupChild cs n <;> simp [FSNode.find]
  | cons c p ih =>
    cases fs with
    | file co => simp [FSNode.find]
    | dir r cs =>
      simp only [List.cons_append, FSNode.find]
      cases lookupChild cs c <;> simp [ih]

theorem find_insertAt_self (n : String) (x : FSNode) :
    ∀ (p : List String) (fs : FSNode) (r : Bool) (cs : List (String × FSNode)),
      fs.find p = some (FSNode.dir r cs) →
      (fs.insertAt p n x).find p = some (FSNode.dir r (cs ++ [(n, x)])) := by
  intro p
  induction p with
  | nil =>
    intro fs r cs h
    cases fs with
    | file c => simp [FSNode.find] at h
    | dir r' cs' =>
      simp [FSNode.find] at h
      obtain ⟨rfl, rfl⟩ := h
      simp [FSNode.insertAt, FSNode.find]
  | cons c p ih =>
    intro fs r cs h
    cases fs with
    | file co => simp [FSNode.find] at h
    | dir r' cs' =>
      simp only [FSNode.find] at h
      simp only [FSNode.insertAt, FSNode.find]
      rw [lookupChild_map_update (fun m => FSNode.insertAt m p n x) c cs' c,
        if_pos rfl]
      cases hl : lookupChild cs' c with
      | none => rw [hl] at h; simp at h
      | some m =>
        rw [hl] at h
        simp only [Option.map_some']
        exact ih m r cs h

theorem find_removeAt_self (n : String) :
    ∀ (p : List String) (fs : FSNode) (r : Bool) (cs : List (String × FSNode)),
      fs.find p = some (FSNode.dir r cs) →
      (fs.removeAt p n).find p =
        some (FSNode.dir r (cs.filter (fun q => q.1 ≠ n))) := by
  intro p
  induction p with
  | nil =>
    intro fs r cs h
    cases fs with
    | file c => simp [FSNode.find] at h
    | dir r' cs' =>
      simp [FSNode.find] at h
      obtain ⟨rfl, rfl⟩ := h
      simp [FSNode.removeAt, FSNode.find]
  | cons c p ih =>
    intro fs r cs h
    cases fs with
    | file co => simp [FSNode.find] at h
    | dir r' cs' =>
      simp only [FSNode.find] at h
      simp only [FSNode.removeAt, FSNode.find]
      rw [lookupChild_map_update (fun m => FSNode.removeAt m p n) c cs' c,
        if_pos rfl]
      cases hl : lookupChild cs' c with
      | none => rw [hl] at h; simp at h
      | some m =>
        rw [hl] at h
        simp only [Option.map_some']
        exact ih m r cs h

/-- Removing the entry just created restores the tree exactly, for a
directory whose path has no duplicate names and which did not already
hold the name. -/
theorem remove_insert_cancel (n : String) (x : FSNode) :
    ∀ (p : List String) (fs : FSNode) (r : Bool) (cs : List (String × FSNode)),
      fs.find p = some (FSNode.dir r cs) →
      lookupChild cs n = none →
      fs.pathNodup p = true →
      (fs.insertAt p n x).removeAt p n = fs := by
  intro p
  induction p with
  | nil =>
    intro fs r cs h hn _
    cases fs with
    | file c => simp [FSNode.find] at h
    | dir r' cs' =>
      simp [FSNode.find] at h
      obtain ⟨rfl, rfl⟩ := h
      simp only [FSNode.insertAt, FSNode.removeAt]
      rw [List.filter_append]
      rw [List.filter_eq_self.mpr, List.filter_cons]
      · simp
      · intro q hq
        have := (lookupChild_eq_none_iff _ n).mp hn q hq
        simpa using this
  | cons c p ih =>
    intro fs r cs h hn hnd
    cases fs with
    | file co => simp [FSNode.find] at h
    | dir r' cs' =>
      simp only [FSNode.find] at h
      cases hl : lookupChild cs' c with
      | none => rw [hl] at h; simp at h
      | some m =>
        rw [hl] at h
        simp only [FSNode.pathNodup, hl, Bool.and_eq_true, decide_eq_true_eq] at hnd
        obtain ⟨hcount, hndm⟩ := hnd
        simp only [FSNode.insertAt, FSNode.removeAt, List.map_map]
        congr 1
        conv_rhs => rw [← List.map_id cs']
        apply List.map_congr_left
        intro q hq
        by_cases hqc : q.1 = c
        · have hq2 : q.2 = m := by
            have hu := lookupChild_unique cs' q (by rw [hqc]; exact hcount) hq
            rw [hqc, hl] at hu
            exact (Option.some.inj hu).symm
          simp only [Function.comp_apply, if_pos hqc, id_eq]
          rw [hq2, ih m r cs h hn hndm, ← hq2]
        · simp only [Function.comp_apply, if_neg hqc, id_eq]

/-- `normalize` is the identity on paths of real component names. -/
theorem normalize_valid (l : List String) (h : validPath l = true) :
    normalize l = l := by
  have gen : ∀ (l' : List String) (acc : List String),
      (∀ c ∈ l', (!(c == "" || c == "." || c == "..")) = true) →
      List.foldl
        (fun acc c =>
          if c = "" ∨ c = "." then acc
          else if c = ".." then acc.dropLast
          else acc ++ [c]) acc l' = acc ++ l' := by
    intro l'
    induction l' with
    | nil => intro acc _; simp
    | cons c l ih =>
      intro acc hv
      have hc := hv c (List.mem_cons_self c l)
      simp only [Bool.not_eq_true', Bool.or_eq_false_iff, beq_eq_false_iff_ne,
        ne_eq] at hc
      obtain ⟨⟨h1, h2⟩, h3⟩ := hc
      rw [List.foldl_cons, if_neg (by tauto), if_neg h3,
        ih (acc ++ [c]) (fun d hd => hv d (List.mem_cons_of_mem c hd))]
      simp
  unfold validPath at h
  rw [List.all_eq_true] at h
  exact gen l [] h

/-- Deleting the key just set removes exactly the appended entry when the
key was absent. -/
theorem dictDel_dictSet_cancel (d : List (String × CacheEntry)) (k : String)
    (v : CacheEntry) (h : dictContains d k = false) :
    dictDel (dictSet d k v) k = d := by
  unfold dictSet
  rw [if_neg (by simp [h])]
  unfold dictDel
  rw [List.filter_append, List.filter_eq_self.mpr, List.filter_cons]
  · simp
  · intro q hq
    have hne : ¬(q.1 = k) := by
      intro he
      have ht : dictContains d k = true :=
        List.any_eq_true.mpr ⟨q, hq, by simp [he]⟩
      rw [h] at ht
      exact Bool.false_ne_true ht
    simpa using hne

/-! ## Shared concrete worlds for witnesses and counterexamples -/

/-- A home directory used by concrete instances. -/
def exHome : List String := ["home", "user"]

/-- A small filesystem: two files, a nested subtree, an unreadable
directory. -/
def exFs : FSNode :=
  FSNode.dir true
    [("b.txt", FSNode.file "hello"),
     (".hidden", FSNode.file "h"),
     ("sub", FSNode.dir true [("main.py", FSNode.file "print(1)")]),
     ("notes.txt", FSNode.file "note")]

/-- The refreshed snapshot at the root of `exFs`. -/
def exSt : PState := { current_dir := [], file_cache := update_file_cache exFs [] }

/-! ## Claim C1 -/

/-- C1 counterexample: on a remote query whose API call times out,
`process_query` returns the Timeout text with the is-local-result flag
set to TRUE — the claim's assertion that the flag is not true fails at
this input. -/
theorem c1_counterexample :
    (process_query dedupFirstSeen exFs exHome exSt
        "please tell me about quantum computing" ApiOutcome.timeout).map Prod.fst =
      some ("Request timed out. The Perplexity API might be slow or unreachable.", true) := by
  rfl

/-- C1 (amended): for every query the router classifies as remote, a
timed-out call returns the Timeout `RemoteError` text — nothing is raised
past the boundary — with the is-local-result flag TRUE, as for every
remote failure; a successful remote answer carries FALSE, which is how
callers distinguish a remote answer from an error/local message. -/
theorem c1_timeout_is_displayable_flagged_local
    (setOrder : List String → List String) (fs : FSNode) (home : List String)
    (st : PState) (q t : String)
    (h : classify q = some (ParsedCommand.remote t)) :
    (process_query setOrder fs home st q ApiOutcome.timeout).map Prod.fst =
      some ("Request timed out. The Perplexity API might be slow or unreachable.", true) ∧
    (∀ c cs, (process_query setOrder fs home st q
        (ApiOutcome.success (c :: cs))).map (fun r => r.1.2) = some false) := by
  refine ⟨?_, fun c cs => ?_⟩ <;> simp [process_query, h, processRemote]

/-- C1 witness: the amended theorem at a concrete remote query. -/
theorem c1_timeout_is_displayable_flagged_local_witness :
    (process_query dedupFirstSeen exFs exHome exSt
        "please explain monads" ApiOutcome.timeout).map Prod.fst =
      some ("Request timed out. The Perplexity API might be slow or unreachable.", true) :=
  (c1_timeout_is_displayable_flagged_local dedupFirstSeen exFs exHome exSt
    "please explain monads" "please explain monads" rfl).1

/-! ## Claim C5 -/

/-- C5: `createFile("../x")`, `createFile("a/b")` and `remove("..")` all
fail with the name-safety rejection — the same usage-error class, its
messages sharing the `Invalid characters or path components in` prefix —
and leave both the filesystem and the snapshot untouched. -/
theorem c5_name_safety_rejection (fs : FSNode) (st : PState) :
    handle_create_file fs st "../x" =
      (("Invalid characters or path components in filename: ../x", true), fs, st) ∧
    handle_create_file fs st "a/b" =
      (("Invalid characters or path components in filename: a/b", true), fs, st) ∧
    handle_rm fs st ".." =
      (("Invalid characters or path components in name: ... Cannot delete relative paths.",
        true), fs, st) ∧
    (strStartsWith (handle_create_file fs st "../x").1.1
        "Invalid characters or path components in" = true ∧
      strStartsWith (handle_create_file fs st "a/b").1.1
        "Invalid characters or path components in" = true ∧
      strStartsWith (handle_rm fs st "..").1.1
        "Invalid characters or path components in" = true) := by
  have h1 : invalidCreateName "../x" = true := by decide
  have h2 : invalidCreateName "a/b" = true := by decide
  have h3 : (strContains ".." ".." || ".." = "." || containsChar ".." '/'
      || containsChar ".." '\\') = true := by decide
  have e1 : handle_create_file fs st "../x" =
      (("Invalid characters or path components in filename: ../x", true), fs, st) := by
    simp [handle_create_file, h1]
  have e2 : handle_create_file fs st "a/b" =
      (("Invalid characters or path components in filename: a/b", true), fs, st) := by
    simp [handle_create_file, h2]
  have e3 : handle_rm fs st ".." =
      (("Invalid characters or path components in name: ... Cannot delete relative paths.",
        true), fs, st) := by
    simp only [handle_rm, h3]
    simp
  exact ⟨e1, e2, e3, by rw [e1]; rfl, by rw [e2]; rfl, by rw [e3]; rfl⟩

/-! ## Claim C10 -/

/-- The shape of `classify` once the first token is known: the match of
its definition with the split result substituted. -/
theorem classify_cons (q t : String) (rest : List String)
    (hsplit : pySplit1 q = t :: rest) :
    classify q =
      (match lookupCommand (pyLower t) with
       | some h =>
         if pyLower t ∈ argCommands then
           some (ParsedCommand.localCmd h
             (some ((rest.head?.map pyStrip).getD "")))
         else some (ParsedCommand.localCmd h none)
       | none =>
         match nlMatch q with
         | some (key, h, g) =>
           if key ∈ nlArgKeys then
             some (ParsedCommand.localCmd h (some (pyStrip (g.getD ""))))
           else some (ParsedCommand.localCmd h none)
         | none => some (ParsedCommand.remote q)) := by
  unfold classify
  simp only [hsplit]
  cases rest <;> rfl

/-- C10: when the first whitespace-delimited token of the line
case-insensitively equals one of the zero-argument aliases (`ls`, `tree`,
`pwd`, `help`, `exit`, `quit`), the line classifies to that alias's
handler with no argument — the remaining text is silently ignored — and
`process_query` behaves exactly as if the bare alias had been typed. -/
theorem c10_zero_arg_aliases_ignore_rest
    (setOrder : List String → List String) (fs : FSNode) (home : List String)
    (st : PState) (out : ApiOutcome) (q t : String) (rest : List String)
    (hsplit : pySplit1 q = t :: rest)
    (hmem : pyLower t ∈ ["ls", "tree", "pwd", "help", "exit", "quit"]) :
    classify q = some (ParsedCommand.localCmd
      ((lookupCommand (pyLower t)).getD HandlerId.lsH) none) ∧
    process_query setOrder fs home st q out =
      process_query setOrder fs home st (pyLower t) out := by
  simp only [List.mem_cons, List.not_mem_nil, or_false] at hmem
  have hc := classify_cons q t rest hsplit
  rcases hmem with h | h | h | h | h | h <;>
    rw [h] at hc <;> rw [h] <;>
    exact ⟨by rw [hc]; rfl, by unfold process_query; rw [hc]; rfl⟩

/-- C10 witness: `ls /tmp` runs the listing command on the current
directory, exactly as bare `ls` does. -/
theorem c10_zero_arg_aliases_ignore_rest_witness :
    process_query dedupFirstSeen exFs exHome exSt "ls /tmp" ApiOutcome.timeout =
      process_query dedupFirstSeen exFs exHome exSt "ls" ApiOutcome.timeout :=
  (c10_zero_arg_aliases_ignore_rest dedupFirstSeen exFs exHome exSt
    ApiOutcome.timeout "ls /tmp" "ls" ["/tmp"] rfl (by decide)).2

/-! ## Claim C7 -/

/-- C7 counterexample: classification DOES fail for one family of input
strings — a whitespace-only line has no first token, and the source
raises `IndexError` at `cmd_parts[0]` (modelled by `none`), instead of
producing a RemoteQuery. -/
theorem c7_counterexample :
    classify " " = none ∧
    process_query dedupFirstSeen exFs exHome exSt " " ApiOutcome.timeout = none := by
  exact ⟨rfl, rfl⟩

/-- C7 (amended): `"ls"` and `"list files"` classify to the same local
command key (the listing handler, with no argument); every input with at
least one token that matches no exact command and no natural-language
pattern classifies as a RemoteQuery carrying the raw input unchanged; and
classification succeeds for every input containing a non-whitespace
character (only a whitespace-only line makes it raise). -/
theorem c7_router_classification
    (q t : String) (rest : List String)
    (hsplit : pySplit1 q = t :: rest)
    (hcmd : lookupCommand (pyLower t) = none)
    (hnl : nlMatch q = none) :
    classify "ls" = some (ParsedCommand.localCmd HandlerId.lsH none) ∧
    classify "list files" = some (ParsedCommand.localCmd HandlerId.lsH none) ∧
    classify q = some (ParsedCommand.remote q) ∧
    (∀ q' t' rest', pySplit1 q' = t' :: rest' → (classify q').isSome = true) := by
  refine ⟨rfl, rfl, ?_, ?_⟩
  · rw [classify_cons q t rest hsplit, hcmd, hnl]
  · intro q' t' rest' hsplit'
    rw [classify_cons q' t' rest' hsplit']
    split
    · split <;> rfl
    · split
      · split <;> rfl
      · rfl

/-- C7 witness: the amended theorem at `"hello there world"`, whose first
token is no command alias and which no pattern matches. -/
theorem c7_router_classification_witness :
    classify "hello there world" = some (ParsedCommand.remote "hello there world") :=
  (c7_router_classification "hello there world" "hello" ["there world"]
    rfl rfl rfl).2.2.1

/-! ## Claim C8 -/

/-- C8: for a valid, relative-path-free name (non-empty, not `.`, passing
the name-safety guard) that does not exist under `current_dir` and is not
in the snapshot (as after a refresh, by the snapshot invariant),
`createFile(name)` followed by `remove(name)` returns both the filesystem
and the snapshot — in particular the snapshot's entry set — to their
prior state. The `pathNodup` hypothesis says the directory tree has no
duplicate sibling names along `current_dir`, true of every real
directory. -/
theorem c8_create_then_remove_restores
    (fs : FSNode) (st : PState) (name : String) (r : Bool)
    (cs : List (String × FSNode))
    (hdir : fs.find st.current_dir = some (FSNode.dir r cs))
    (hnodup : fs.pathNodup st.current_dir = true)
    (hne : name ≠ "") (hnedot : name ≠ ".")
    (hvalid : invalidCreateName name = false)
    (hpath : validPath (st.current_dir ++ [name]) = true)
    (hnotexists : py_exists fs (st.current_dir ++ [name]) = false)
    (hnotcached : dictContains st.file_cache name = false) :
    (handle_rm (handle_create_file fs st name).2.1
        (handle_create_file fs st name).2.2 name).2 = (fs, st) := by
  have hnorm : normalize (st.current_dir ++ [name]) = st.current_dir ++ [name] :=
    normalize_valid _ hpath
  have hfind0 : fs.find (st.current_dir ++ [name]) = none := by
    unfold py_exists at hnotexists
    rw [hnorm] at hnotexists
    exact Option.not_isSome_iff_eq_none.mp (by simp [hnotexists])
  have hlook : lookupChild cs name = none := by
    rw [find_append_singleton, hdir] at hfind0
    exact hfind0
  have e1 : handle_create_file fs st name =
      (("File created: " ++ name, true),
       fs.insertAt st.current_dir name (FSNode.file ""),
       { st with file_cache :=
           dictSet st.file_cache name { is_dir := false, content := some "" } }) := by
    rw [handle_create_file, if_neg hne, if_neg (by simp [hvalid]),
      if_neg (by simp [hnotexists])]
  rw [e1]
  have hguard : (strContains name ".." || name = "." || containsChar name '/'
      || containsChar name '\\') = false := by
    unfold invalidCreateName at hvalid
    simp only [Bool.or_eq_false_iff] at hvalid ⊢
    refine ⟨⟨⟨hvalid.1.1, ?_⟩, hvalid.1.2⟩, hvalid.2⟩
    simpa using hnedot
  have hfind1 : (fs.insertAt st.current_dir name (FSNode.file "")).find
      (normalize (st.current_dir ++ [name])) = some (FSNode.file "") := by
    rw [hnorm, find_append_singleton,
      find_insertAt_self name (FSNode.file "") st.current_dir fs r cs hdir]
    show lookupChild (cs ++ [(name, FSNode.file "")]) name = some (FSNode.file "")
    rw [lookupChild_append, hlook]
    simp [lookupChild]
  rw [handle_rm, if_neg hne, if_neg (by simp [hguard])]
  simp only [hfind1]
  rw [remove_insert_cancel name (FSNode.file "") st.current_dir fs r cs hdir hlook hnodup]
  rw [dictDel_dictSet_cancel st.file_cache name _ hnotcached]

/-- C8 witness: creating then removing `tmp.txt` at the root of the
example filesystem restores both the tree and the snapshot. -/
theorem c8_create_then_remove_restores_witness :
    (handle_rm (handle_create_file exFs exSt "tmp.txt").2.1
        (handle_create_file exFs exSt "tmp.txt").2.2 "tmp.txt").2 = (exFs, exSt) :=
  c8_create_then_remove_restores exFs exSt "tmp.txt" true _ rfl (by decide)
    (by decide) (by decide) (by decide) (by decide) (by decide) (by decide)

/-! ## Claim C9 -/

/-- `containsChar` agrees with list membership. -/
theorem containsChar_eq_false_iff (c : String) (d : Char) :
    containsChar c d = false ↔ d ∉ c.toList := by
  unfold containsChar
  simp

/-- A string with no slash is a single `split("/")` component. -/
theorem splitOnSlash_no_slash (c : String) (h : containsChar c '/' = false) :
    splitOnSlash c = [c] := by
  have hnot : '/' ∉ c.toList := (containsChar_eq_false_iff c '/').mp h
  have gen : ∀ (l : List Char) (acc : List Char), '/' ∉ l →
      splitOnSlashAux l acc = [String.mk (acc.reverse ++ l)] := by
    intro l
    induction l with
    | nil => intro acc _; simp [splitOnSlashAux]
    | cons d ds ih =>
      intro acc hmem
      have hd : ¬(d = '/') := fun he => hmem (by rw [he]; exact List.mem_cons_self '/' ds)
      rw [splitOnSlashAux, if_neg hd,
        ih (d :: acc) (fun hm => hmem (List.mem_cons_of_mem d hm))]
      simp
  unfold splitOnSlash
  rw [gen c.toList [] hnot]
  simp

/-- A string with no slash does not start with one. -/
theorem not_startsWith_slash (c : String) (h : containsChar c '/' = false) :
    strStartsWith c "/" = false := by
  have hnot : '/' ∉ c.toList := (containsChar_eq_false_iff c '/').mp h
  unfold strStartsWith
  cases hc : c.toList with
  | nil => rfl
  | cons d ds =>
    have hd : ¬(d = '/') := fun he => hnot (by rw [hc, he]; exact List.mem_cons_self _ _)
    show (('/' == d) && (([] : List Char).isPrefixOf ds)) = false
    simp [Ne.symm hd]

/-- Fields of `validPath` for the last component. -/
theorem validPath_last (p : List String) (c : String)
    (h : validPath (p ++ [c]) = true) :
    c ≠ "" ∧ c ≠ "." ∧ c ≠ ".." := by
  unfold validPath at h
  rw [List.all_eq_true] at h
  have := h c (by simp)
  simp only [Bool.not_eq_true', Bool.or_eq_false_iff, beq_eq_false_iff_ne, ne_eq] at this
  exact ⟨this.1.1, this.1.2, this.2⟩

/-- C9 (amended): from a non-root `currentPath` that still exists as an
accessible directory, whose parent is an accessible directory, and whose
last component is a plain name (not the home-alias `~`/`$HOME` and
containing no slash), `navigate("..")` followed by `navigate(<last
component>)` returns `currentPath` to the original value. -/
theorem c9_parent_then_child_roundtrip
    (fs : FSNode) (home : List String) (st : PState)
    (p : List String) (c : String) (csp css : List (String × FSNode))
    (hcur : st.current_dir = p ++ [c])
    (hvalid : validPath (p ++ [c]) = true)
    (hnotilde : c ≠ "~") (hnohome : c ≠ "$HOME")
    (hnoslash : containsChar c '/' = false)
    (hparent : fs.find p = some (FSNode.dir true csp))
    (hself : fs.find (p ++ [c]) = some (FSNode.dir true css)) :
    ((handle_cd fs home (handle_cd fs home st "..").2 c).2).current_dir
      = st.current_dir := by
  obtain ⟨hc0, hc1, hc2⟩ := validPath_last p c hvalid
  have hres1 : resolve_cd home st.current_dir ".." = p := by
    unfold resolve_cd
    rw [if_pos rfl, hcur, List.dropLast_concat]
  have e1 : (handle_cd fs home st "..").2 =
      { current_dir := p, file_cache := update_file_cache fs p } := by
    rw [handle_cd, if_neg (by decide), hres1, hparent]
  rw [e1]
  have hres2 : resolve_cd home p c = p ++ [c] := by
    unfold resolve_cd
    rw [if_neg hc2, if_neg (by simp [hnotilde, hnohome])]
    unfold pyJoin
    rw [not_startsWith_slash c hnoslash, splitOnSlash_no_slash c hnoslash]
    simp [normalize_valid _ hvalid]
  rw [handle_cd, if_neg hc0]
  rw [show resolve_cd home
      ({ current_dir := p, file_cache := update_file_cache fs p } : PState).current_dir c
      = p ++ [c] from hres2, hself, hcur]

/-- The snapshot used by the C9 witness: the session stands in `sub`. -/
def c9WSt : PState :=
  { current_dir := ["sub"], file_cache := update_file_cache exFs ["sub"] }

/-- C9 witness: `cd ..` then `cd sub` returns to `/sub` in the example
world. -/
theorem c9_parent_then_child_roundtrip_witness :
    ((handle_cd exFs exHome (handle_cd exFs exHome c9WSt "..").2 "sub").2).current_dir
      = c9WSt.current_dir :=
  c9_parent_then_child_roundtrip exFs exHome c9WSt [] "sub" _ _ rfl (by decide)
    (by decide) (by decide) (by decide) rfl rfl

/-- The world of the C9 counterexample: the session stands in a real
directory literally named `~` under `/home/u`, which is also the home
directory. -/
def c9Fs : FSNode :=
  FSNode.dir true
    [("home", FSNode.dir true
       [("u", FSNode.dir true
          [("~", FSNode.dir true [])])])]

/-- The C9 counterexample's snapshot: `currentPath = /home/u/~`. -/
def c9St : PState :=
  { current_dir := ["home", "u", "~"],
    file_cache := update_file_cache c9Fs ["home", "u", "~"] }

/-- C9 counterexample: the claim's hypotheses hold — `/home/u/~` is
non-root and its parent `/home/u` exists and is an accessible directory —
yet `navigate("..")` followed by `navigate("~")` (the original last
component) lands on the home directory `/home/u`, not back on
`/home/u/~`: the home-alias rule of `navigate` captures the component. -/
theorem c9_counterexample :
    c9Fs.find ["home", "u"] = some (FSNode.dir true [("~", FSNode.dir true [])]) ∧
    ((handle_cd c9Fs ["home", "u"]
        (handle_cd c9Fs ["home", "u"] c9St "..").2 "~").2).current_dir
      = ["home", "u"] ∧
    (["home", "u"] : List String) ≠ c9St.current_dir :=
  ⟨rfl, rfl, by decide⟩

/-! ## Claim C2 -/

/-- The operations the spec's snapshot invariant quantifies over
(`refresh`, `createFile`, `createDirectory`, `remove`, `navigate`),
as state transformers. -/
inductive SnapOp where
  | refresh
  | create (n : String)
  | mkdirOp (n : String)
  | rm (n : String)
  | cd (t : String)

/-- Apply one snapshot-touching operation, returning the filesystem and
state it leaves behind. -/
def applyOp (fs : FSNode) (home : List String) (st : PState) :
    SnapOp → FSNode × PState
  | SnapOp.refresh =>
    (fs, { st with file_cache := update_file_cache fs st.current_dir })
  | SnapOp.create n => (handle_create_file fs st n).2
  | SnapOp.mkdirOp n => (handle_mkdir fs st n).2
  | SnapOp.rm n => (handle_rm fs st n).2
  | SnapOp.cd t => (fs, (handle_cd fs home st t).2)

/-- The snapshot invariant of the data model: `current_dir` is a listable
directory, and every cache key names one of its immediate children. -/
def goodSnap (fs : FSNode) (st : PState) : Prop :=
  readableDirAt fs st.current_dir = true ∧
  ∀ k ∈ cacheKeys st.file_cache, k ∈ childNames fs st.current_dir

instance (fs : FSNode) (st : PState) : Decidable (goodSnap fs st) := by
  unfold goodSnap
  infer_instance

/-- A refresh of a listable directory produces exactly its child names as
keys. -/
theorem cacheKeys_refresh (fs : FSNode) (p : List String)
    (h : readableDirAt fs p = true) :
    cacheKeys (update_file_cache fs p) = childNames fs p := by
  unfold readableDirAt at h
  unfold update_file_cache cacheKeys childNames
  cases hf : fs.find p with
  | none => rw [hf] at h; cases h
  | some node =>
    cases node with
    | file c => rw [hf] at h; cases h
    | dir r cs =>
      rw [hf] at h
      cases r with
      | false => cases h
      | true => simp [List.map_map]

/-- Inserting a child appends its name to the directory's child list. -/
theorem childNames_insertAt (fs : FSNode) (p : List String) (n : String)
    (x : FSNode) (r : Bool) (cs : List (String × FSNode))
    (h : fs.find p = some (FSNode.dir r cs)) :
    childNames (fs.insertAt p n x) p = childNames fs p ++ [n] := by
  unfold childNames
  rw [find_insertAt_self n x p fs r cs h, h]
  simp

/-- Inserting a child keeps the directory listable. -/
theorem readableDirAt_insertAt (fs : FSNode) (p : List String) (n : String)
    (x : FSNode) (cs : List (String × FSNode))
    (h : fs.find p = some (FSNode.dir true cs)) :
    readableDirAt (fs.insertAt p n x) p = true := by
  unfold readableDirAt
  rw [find_insertAt_self n x p fs true cs h]

/-- First components of a key-filtered association list. -/
theorem map_fst_filter_ne (cs : List (String × FSNode)) (n : String) :
    (cs.filter (fun q => q.1 ≠ n)).map Prod.fst =
      (cs.map Prod.fst).filter (fun m => m ≠ n) := by
  induction cs with
  | nil => rfl
  | cons q qs ih =>
    simp only [decide_not] at ih
    by_cases hq : q.1 = n
    · simp [List.filter_cons, hq, ih]
    · simp [List.filter_cons, hq, ih]

/-- Removing a child filters its name out of the directory's child list. -/
theorem childNames_removeAt (fs : FSNode) (p : List String) (n : String)
    (r : Bool) (cs : List (String × FSNode))
    (h : fs.find p = some (FSNode.dir r cs)) :
    childNames (fs.removeAt p n) p =
      (childNames fs p).filter (fun m => m ≠ n) := by
  unfold childNames
  rw [find_removeAt_self n p fs r cs h, h]
  exact map_fst_filter_ne cs n

/-- Removing a child keeps the directory listable. -/
theorem readableDirAt_removeAt (fs : FSNode) (p : List String) (n : String)
    (cs : List (String × FSNode))
    (h : fs.find p = some (FSNode.dir true cs)) :
    readableDirAt (fs.removeAt p n) p = true := by
  unfold readableDirAt
  rw [find_removeAt_self n p fs true cs h]

/-- Keys after `dict[k] = v`: the old keys, plus `k` when it was absent. -/
theorem cacheKeys_dictSet_mem (d : List (String × CacheEntry)) (k : String)
    (v : CacheEntry) (k' : String) (h : k' ∈ cacheKeys (dictSet d k v)) :
    k' ∈ cacheKeys d ∨ k' = k := by
  unfold dictSet cacheKeys at *
  split at h
  · rw [List.map_map] at h
    obtain ⟨q0, hq0, hk⟩ := List.mem_map.mp h
    simp only [Function.comp_apply] at hk
    by_cases hqk : q0.1 = k
    · rw [if_pos hqk] at hk
      exact Or.inr hk.symm
    · rw [if_neg hqk] at hk
      exact Or.inl (List.mem_map.mpr ⟨q0, hq0, hk⟩)
  · rw [List.map_append] at h
    rcases List.mem_append.mp h with h1 | h2
    · exact Or.inl h1
    · exact Or.inr (by simpa using h2)

/-- Keys after `del dict[k]`: old keys other than `k`. -/
theorem cacheKeys_dictDel_mem (d : List (String × CacheEntry)) (k : String)
    (k' : String) (h : k' ∈ cacheKeys (dictDel d k)) :
    k' ∈ cacheKeys d ∧ k' ≠ k := by
  unfold dictDel cacheKeys at h
  obtain ⟨q, hq, rfl⟩ := List.mem_map.mp h
  have := List.mem_filter.mp hq
  refine ⟨List.mem_map.mpr ⟨q, this.1, rfl⟩, by simpa using this.2⟩

/-- C2 (amended): the snapshot-key invariant — every cache key names an
immediate child of `current_dir` — is established by `refresh` and by a
successful `navigate`, and preserved by `createFile`, `createDirectory`
and `remove` (their optimistic updates add or delete exactly the mutated
child); after a refresh of a listable directory the keys are exactly the
child names, so no entry for a name outside `current_dir` survives a
refresh. Context assembly is the one snapshot-touching step that can
break the invariant (see the counterexample). -/
theorem c2_snapshot_keys_invariant
    (fs : FSNode) (home : List String) (st : PState) (op : SnapOp)
    (hgood : goodSnap fs st) :
    goodSnap (applyOp fs home st op).1 (applyOp fs home st op).2 ∧
    (∀ (fs' : FSNode) (p : List String), readableDirAt fs' p = true →
      cacheKeys (update_file_cache fs' p) = childNames fs' p) := by
  obtain ⟨hread, hkeys⟩ := hgood
  have hdir : ∃ cs, fs.find st.current_dir = some (FSNode.dir true cs) := by
    unfold readableDirAt at hread
    cases hf : fs.find st.current_dir with
    | none => rw [hf] at hread; cases hread
    | some node =>
      cases node with
      | file c => rw [hf] at hread; cases hread
      | dir r cs =>
        rw [hf] at hread
        cases r with
        | false => cases hread
        | true => exact ⟨cs, rfl⟩
  obtain ⟨cs, hfind⟩ := hdir
  refine ⟨?_, fun fs' p h => cacheKeys_refresh fs' p h⟩
  cases op with
  | refresh =>
    refine ⟨hread, fun k hk => ?_⟩
    have hk' : k ∈ cacheKeys (update_file_cache fs st.current_dir) := hk
    rw [cacheKeys_refresh fs st.current_dir hread] at hk'
    exact hk'
  | create n =>
    simp only [applyOp]
    unfold handle_create_file
    split
    · exact ⟨hread, hkeys⟩
    · split
      · exact ⟨hread, hkeys⟩
      · split
        · exact ⟨hread, hkeys⟩
        · refine ⟨readableDirAt_insertAt fs st.current_dir n (FSNode.file "") cs hfind,
            fun k hk => ?_⟩
          have hk' : k ∈ cacheKeys (dictSet st.file_cache n
              { is_dir := false, content := some "" }) := hk
          have hgoal : k ∈ childNames
              (fs.insertAt st.current_dir n (FSNode.file "")) st.current_dir := by
            rw [childNames_insertAt fs st.current_dir n (FSNode.file "") true cs hfind]
            rcases cacheKeys_dictSet_mem st.file_cache n _ k hk' with h1 | rfl
            · exact List.mem_append_left _ (hkeys k h1)
            · exact List.mem_append_right _ (List.mem_singleton.mpr rfl)
          exact hgoal
  | mkdirOp n =>
    simp only [applyOp]
    unfold handle_mkdir
    split
    · exact ⟨hread, hkeys⟩
    · split
      · exact ⟨hread, hkeys⟩
      · split
        · exact ⟨hread, hkeys⟩
        · refine ⟨readableDirAt_insertAt fs st.current_dir n (FSNode.dir true []) cs hfind,
            fun k hk => ?_⟩
          have hk' : k ∈ cacheKeys (dictSet st.file_cache n
              { is_dir := true, content := none }) := hk
          have hgoal : k ∈ childNames
              (fs.insertAt st.current_dir n (FSNode.dir true [])) st.current_dir := by
            rw [childNames_insertAt fs st.current_dir n (FSNode.dir true []) true cs hfind]
            rcases cacheKeys_dictSet_mem st.file_cache n _ k hk' with h1 | rfl
            · exact List.mem_append_left _ (hkeys k h1)
            · exact List.mem_append_right _ (List.mem_singleton.mpr rfl)
          exact hgoal
  | rm n =>
    simp only [applyOp]
    unfold handle_rm
    split
    · exact ⟨hread, hkeys⟩
    · split
      · exact ⟨hread, hkeys⟩
      · split
        · exact ⟨hread, hkeys⟩
        · refine ⟨readableDirAt_removeAt fs st.current_dir n cs hfind,
            fun k hk => ?_⟩
          have hk' : k ∈ cacheKeys (dictDel st.file_cache n) := hk
          have hgoal : k ∈ childNames (fs.removeAt st.current_dir n) st.current_dir := by
            rw [childNames_removeAt fs st.current_dir n true cs hfind]
            obtain ⟨h1, h2⟩ := cacheKeys_dictDel_mem st.file_cache n k hk'
            exact List.mem_filter.mpr ⟨hkeys k h1, by simpa using h2⟩
          exact hgoal
        · split
          · exact ⟨hread, hkeys⟩
          · split
            · refine ⟨readableDirAt_removeAt fs st.current_dir n cs hfind,
                fun k hk => ?_⟩
              have hk' : k ∈ cacheKeys (dictDel st.file_cache n) := hk
              have hgoal : k ∈ childNames (fs.removeAt st.current_dir n) st.current_dir := by
                rw [childNames_removeAt fs st.current_dir n true cs hfind]
                obtain ⟨h1, h2⟩ := cacheKeys_dictDel_mem st.file_cache n k hk'
                exact List.mem_filter.mpr ⟨hkeys k h1, by simpa using h2⟩
              exact hgoal
            · exact ⟨hread, hkeys⟩
  | cd t =>
    simp only [applyOp]
    unfold handle_cd
    split
    · exact ⟨hread, hkeys⟩
    · split
      · exact ⟨hread, hkeys⟩
      · exact ⟨hread, hkeys⟩
      · exact ⟨hread, hkeys⟩
      · next cs2 heq =>
        have hr2 : readableDirAt fs (resolve_cd home st.current_dir t) = true := by
          unfold readableDirAt
          rw [heq]
        refine ⟨hr2, fun k hk => ?_⟩
        have hk' : k ∈ cacheKeys
            (update_file_cache fs (resolve_cd home st.current_dir t)) := hk
        rw [cacheKeys_refresh fs _ hr2] at hk'
        exact hk'

/-- C2 witness: the invariant-preservation theorem instantiated with a
create operation in the example world. -/
theorem c2_snapshot_keys_invariant_witness :
    goodSnap (applyOp exFs exHome exSt (SnapOp.create "new.txt")).1
      (applyOp exFs exHome exSt (SnapOp.create "new.txt")).2 :=
  (c2_snapshot_keys_invariant exFs exHome exSt (SnapOp.create "new.txt")
    (by decide)).1

/-- C2 counterexample: from an invariant-satisfying state, context
assembly for the remote query `explain sub/main.py` registers the key
`sub/main.py` into the snapshot (`_find_file_references`, lines 318-321),
and that key is NOT the name of an immediate child of `currentPath` —
the claim fails for the context-assembly operation. -/
theorem c2_counterexample :
    goodSnap exFs exSt ∧
    dictContains (find_file_references dedupFirstSeen exFs exSt
        "explain sub/main.py").2.file_cache "sub/main.py" = true ∧
    "sub/main.py" ∉ childNames exFs exSt.current_dir := by
  refine ⟨by decide, rfl, by decide⟩

/-! ## Claim C3 -/

/-- First-seen deduplication keeps exactly the elements. -/
theorem mem_dedupFirstSeen (l : List String) (x : String) :
    x ∈ dedupFirstSeen l ↔ x ∈ l := by
  have gen : ∀ (l' : List String) (acc : List String),
      (x ∈ l'.foldl (fun acc y => if y ∈ acc then acc else acc ++ [y]) acc
        ↔ x ∈ acc ∨ x ∈ l') := by
    intro l'
    induction l' with
    | nil => intro acc; simp
    | cons y ys ih =>
      intro acc
      rw [List.foldl_cons]
      by_cases hy : y ∈ acc
      · rw [if_pos hy, ih]
        constructor
        · rintro (h | h)
          · exact Or.inl h
          · exact Or.inr (List.mem_cons_of_mem y h)
        · rintro (h | h)
          · exact Or.inl h
          · rcases List.mem_cons.mp h with rfl | h2
            · exact Or.inl hy
            · exact Or.inr h2
      · rw [if_neg hy, ih]
        constructor
        · rintro (h | h)
          · rcases List.mem_append.mp h with h1 | h1
            · exact Or.inl h1
            · exact Or.inr (by simpa using Or.inl (List.mem_singleton.mp h1))
          · exact Or.inr (List.mem_cons_of_mem y h)
        · rintro (h | h)
          · exact Or.inl (List.mem_append_left _ h)
          · rcases List.mem_cons.mp h with rfl | h2
            · exact Or.inl (List.mem_append_right _ (List.mem_singleton.mpr rfl))
            · exact Or.inr h2
  exact (gen l []).trans (by simp)

/-- First-seen deduplication yields a duplicate-free list. -/
theorem nodup_dedupFirstSeen (l : List String) :
    (dedupFirstSeen l).Nodup := by
  have gen : ∀ (l' : List String) (acc : List String), acc.Nodup →
      (l'.foldl (fun acc y => if y ∈ acc then acc else acc ++ [y]) acc).Nodup := by
    intro l'
    induction l' with
    | nil => intro acc h; simpa using h
    | cons y ys ih =>
      intro acc h
      rw [List.foldl_cons]
      by_cases hy : y ∈ acc
      · rw [if_pos hy]; exact ih acc h
      · rw [if_neg hy]
        exact ih (acc ++ [y]) (by simp [List.nodup_append, h, hy])
  exact gen l [] List.nodup_nil

/-- The world of the C3 instances: three python files at the root. -/
def c3Fs : FSNode :=
  FSNode.dir true
    [("a.py", FSNode.file "a"), ("b.py", FSNode.file "b"),
     ("c.py", FSNode.file "c")]

/-- The refreshed snapshot of the C3 world. -/
def c3St : PState := { current_dir := [], file_cache := update_file_cache c3Fs [] }

/-- A legitimate `list(set(...))` enumeration that reverses first-seen
order (CPython's hash order is some such enumeration, not necessarily
first-seen). -/
def revOrder (l : List String) : List String :=
  (dedupFirstSeen l).reverse

/-- C3 counterexample: for the query `compare a.py b.py c.py` (three
distinct resolved candidates, scan order `a.py, b.py, c.py`), a
legitimate set enumeration makes `files[:2]` equal `[c.py, b.py]` — not
the first 2 matches in scan order, whose take-2 is `[a.py, b.py]`.
`list(set(found_files))` constrains the code no further than
`admissibleSetOrder`, so the claimed first-seen order is not guaranteed. -/
theorem c3_counterexample :
    admissibleSetOrder revOrder ∧
    (get_context revOrder c3Fs c3St "compare a.py b.py c.py").2.2.1 =
      ["c.py", "b.py"] ∧
    (dedupFirstSeen (ffr_raw c3Fs c3St "compare a.py b.py c.py").1).take 2 =
      ["a.py", "b.py"] ∧
    (["c.py", "b.py"] : List String) ≠ ["a.py", "b.py"] :=
  ⟨fun l => (dedupFirstSeen l).reverse_perm, rfl, rfl, by decide⟩

/-- C3 (amended): whatever enumeration the set uses, when the query
resolves more than two distinct candidates the assembler includes exactly
2 of them — distinct, and each one a resolved candidate of the scan — in
the set's enumeration order (deterministic within one process, but not
guaranteed to be first-seen scan order). -/
theorem c3_dedup_cap_two
    (setOrder : List String → List String) (hadm : admissibleSetOrder setOrder)
    (fs : FSNode) (st : PState) (q : String)
    (hmany : 2 < (dedupFirstSeen (ffr_raw fs st q).1).length) :
    ((get_context setOrder fs st q).2.2.1).length = 2 ∧
    ((get_context setOrder fs st q).2.2.1).Nodup ∧
    (∀ x ∈ (get_context setOrder fs st q).2.2.1, x ∈ (ffr_raw fs st q).1) := by
  have hfiles : (get_context setOrder fs st q).2.2.1 =
      (setOrder (ffr_raw fs st q).1).take 2 := rfl
  have hperm := hadm (ffr_raw fs st q).1
  have hlen : (setOrder (ffr_raw fs st q).1).length =
      (dedupFirstSeen (ffr_raw fs st q).1).length := hperm.length_eq
  refine ⟨?_, ?_, ?_⟩
  · rw [hfiles, List.length_take, hlen]
    omega
  · rw [hfiles]
    exact ((hperm.nodup_iff).mpr (nodup_dedupFirstSeen _)).sublist
      (List.take_sublist 2 _)
  · intro x hx
    rw [hfiles] at hx
    have hx1 : x ∈ setOrder (ffr_raw fs st q).1 :=
      List.mem_of_mem_take hx
    exact (mem_dedupFirstSeen _ x).mp (hperm.mem_iff.mp hx1)

/-- C3 witness: three resolved candidates under the first-seen
enumeration give exactly two included files. -/
theorem c3_dedup_cap_two_witness :
    ((get_context dedupFirstSeen c3Fs c3St "compare a.py b.py c.py").2.2.1).length = 2 :=
  (c3_dedup_cap_two dedupFirstSeen (fun _ => List.Perm.refl _) c3Fs c3St
    "compare a.py b.py c.py" (by decide)).1

/-! ## Claim C6 -/

/-- Drop everything strictly below depth `d`: a depth-`d` node keeps its
constructor (file content, directory readability) but loses its
children. `build_tree` at the root only consults the tree up to the
truncation depth the depth theorem names. -/
def truncate : Nat → FSNode → FSNode
  | _, FSNode.file c => FSNode.file c
  | 0, FSNode.dir r _ => FSNode.dir r []
  | d + 1, FSNode.dir r cs =>
    FSNode.dir r (cs.map (fun q => (q.1, truncate d q.2)))

/-- Truncation preserves being a directory. -/
theorem truncate_isDir (d : Nat) (x : FSNode) :
    (truncate d x).isDir = x.isDir := by
  cases x with
  | file c => cases d <;> rfl
  | dir r cs => cases d <;> rfl

/-- Lookup through a child-transforming map. -/
theorem lookupChild_map_snd (g : FSNode → FSNode) :
    ∀ (cs : List (String × FSNode)) (n : String),
      lookupChild (cs.map (fun q => (q.1, g q.2))) n =
        (lookupChild cs n).map g := by
  intro cs n
  induction cs with
  | nil => rfl
  | cons q qs ih =>
    simp only [List.map_cons, lookupChild]
    by_cases hq : q.1 = n <;> simp [hq, ih]

/-- Child names through a child-transforming map. -/
theorem map_fst_map_snd (g : FSNode → FSNode) (cs : List (String × FSNode)) :
    (cs.map (fun q => (q.1, g q.2))).map Prod.fst = cs.map Prod.fst := by
  rw [List.map_map]
  rfl

/-- The sorted visible names only depend on the child names. -/
theorem visibleSortedNames_map_snd (g : FSNode → FSNode)
    (cs : List (String × FSNode)) :
    visibleSortedNames (cs.map (fun q => (q.1, g q.2))) = visibleSortedNames cs := by
  unfold visibleSortedNames
  rw [map_fst_map_snd]

/-- One line of the tree only depends on names and directory flags. -/
theorem tree_line_map_snd (g : FSNode → FSNode)
    (hg : ∀ x, (g x).isDir = x.isDir)
    (cs : List (String × FSNode)) (pre : String) (count i : Nat) (n : String) :
    tree_line (cs.map (fun q => (q.1, g q.2))) pre count i n =
      tree_line cs pre count i n := by
  unfold tree_line
  rw [lookupChild_map_snd]
  cases lookupChild cs n with
  | none => rfl
  | some m => simp [hg m]

/-- Key-preserving filters commute with taking first components. -/
theorem map_fst_filter_pred (pname : String → Bool)
    (cs : List (String × FSNode)) :
    (cs.filter (fun q => pname q.1)).map Prod.fst =
      (cs.map Prod.fst).filter pname := by
  induction cs with
  | nil => rfl
  | cons q qs ih =>
    rw [List.map_cons, List.filter_cons, List.filter_cons]
    by_cases hq : pname q.1 = true
    · simp [hq, ih]
    · simp [hq, ih]

/-- Lookup of a name a filter never removes is unchanged by the filter. -/
theorem lookupChild_filter (pq : String × FSNode → Bool)
    (cs : List (String × FSNode)) (n : String)
    (hkeep : ∀ q ∈ cs, q.1 = n → pq q = true) :
    lookupChild (cs.filter pq) n = lookupChild cs n := by
  induction cs with
  | nil => rfl
  | cons q qs ih =>
    rw [List.filter_cons]
    by_cases hq : pq q = true
    · rw [if_pos hq, lookupChild, lookupChild]
      by_cases hn : q.1 = n <;>
        simp [hn, ih (fun p hp he => hkeep p (List.mem_cons_of_mem q hp) he)]
    · have hqn : ¬(q.1 = n) := fun he =>
        hq (hkeep q (List.mem_cons_self q qs) he)
      rw [if_neg hq, lookupChild, if_neg hqn]
      exact ih (fun p hp he => hkeep p (List.mem_cons_of_mem q hp) he)

/-- Totality of the code-point order. -/
theorem charListLe_total : ∀ a b : List Char,
    charListLe a b = true ∨ charListLe b a = true := by
  intro a
  induction a with
  | nil => intro b; exact Or.inl rfl
  | cons x xs ih =>
    intro b
    cases b with
    | nil => exact Or.inr rfl
    | cons y ys =>
      by_cases hxy : x = y
      · subst hxy
        rcases ih ys with h | h
        · exact Or.inl (by simp [charListLe, h])
        · exact Or.inr (by simp [charListLe, h])
      · rcases lt_trichotomy x y with h | h | h
        · exact Or.inl (by simp [charListLe, hxy, h])
        · exact absurd h hxy
        · exact Or.inr (by simp [charListLe, Ne.symm hxy, h, not_lt_of_lt h])

/-- Transitivity of the code-point order. -/
theorem charListLe_trans : ∀ a b c : List Char,
    charListLe a b = true → charListLe b c = true → charListLe a c = true := by
  intro a
  induction a with
  | nil => intro b c _ _; rfl
  | cons x xs ih =>
    intro b c hab hbc
    cases b with
    | nil => simp [charListLe] at hab
    | cons y ys =>
      cases c with
      | nil => simp [charListLe] at hbc
      | cons z zs =>
        simp only [charListLe] at hab hbc ⊢
        by_cases hxy : x = y
        · subst hxy
          rw [if_pos rfl] at hab
          by_cases hyz : x = z
          · subst hyz
            rw [if_pos rfl] at hbc ⊢
            exact ih ys zs hab hbc
          · rw [if_neg hyz] at hbc ⊢
            exact hbc
        · rw [if_neg hxy] at hab
          have hxylt : x < y := of_decide_eq_true hab
          by_cases hyz : y = z
          · subst hyz
            rw [if_neg hxy]
            exact hab
          · have hyzlt : y < z := of_decide_eq_true (by rwa [if_neg hyz] at hbc)
            have hxz : x < z := lt_trans hxylt hyzlt
            rw [if_neg (ne_of_lt hxz)]
            exact decide_eq_true hxz

instance : IsTotal String pyStrLeRel :=
  ⟨fun a b => charListLe_total a.toList b.toList⟩

instance : IsTrans String pyStrLeRel :=
  ⟨fun a b c => charListLe_trans a.toList b.toList c.toList⟩

/-- Snd-projection of enumeration membership. -/
theorem mem_enumFrom_snd {α : Type} : ∀ (l : List α) (k : Nat) (q : Nat × α),
    q ∈ l.enumFrom k → q.2 ∈ l := by
  intro l
  induction l with
  | nil => intro k q h; simp [List.enumFrom] at h
  | cons x xs ih =>
    intro k q h
    rw [List.enumFrom] at h
    rcases List.mem_cons.mp h with h | h
    · rw [h]; exact List.mem_cons_self x xs
    · exact List.mem_cons_of_mem x (ih (k + 1) q h)

/-- Snd-projection of enumeration membership, from zero. -/
theorem mem_enum_snd {α : Type} (l : List α) (q : Nat × α) (h : q ∈ l.enum) :
    q.2 ∈ l :=
  mem_enumFrom_snd l 0 q h

/-- Every rendered name is visible: it never starts with a dot. -/
theorem visible_not_hidden (cs : List (String × FSNode)) (n : String)
    (h : n ∈ visibleSortedNames cs) : strStartsWith n "." = false := by
  unfold visibleSortedNames pySorted at h
  have h2 := (List.perm_insertionSort pyStrLeRel _).mem_iff.mp h
  have h3 := List.of_mem_filter h2
  simpa using h3

/-- Filtering out the hidden names before sorting changes nothing: the
visible-name computation already drops them. -/
theorem visibleSortedNames_filter_visible (cs : List (String × FSNode)) :
    visibleSortedNames (cs.filter (fun q => !strStartsWith q.1 ".")) =
      visibleSortedNames cs := by
  unfold visibleSortedNames
  rw [map_fst_filter_pred (fun n => !strStartsWith n ".") cs, List.filter_filter]
  apply congrArg pySorted
  apply List.filter_congr
  intro n _
  exact Bool.and_self _

/-- The tree drawn with fuel `4 - level` only consults the filesystem
down to `4 - level` levels below the rendered root: the `level < 3`
recursion guard stops one step before the fuel could run out, so
truncating the tree at the fuel depth leaves the drawing unchanged. -/
theorem build_tree_fuel_truncate :
    ∀ (fuel : Nat) (node : FSNode) (pre : String) (level : Nat),
      fuel + level = 4 → 1 ≤ fuel →
      build_tree_fuel fuel node pre level =
        build_tree_fuel fuel (truncate fuel node) pre level := by
  intro fuel
  induction fuel with
  | zero => intro node pre level _ h1; exact absurd h1 (by decide)
  | succ f ih =>
    intro node pre level hsum _
    cases node with
    | file c => rfl
    | dir r cs =>
      cases r with
      | false => rfl
      | true =>
        simp only [build_tree_fuel, truncate]
        rw [visibleSortedNames_map_snd]
        apply congrArg List.flatten
        apply List.map_congr_left
        intro q hq
        rw [tree_line_map_snd (truncate f) (truncate_isDir f) cs]
        rw [lookupChild_map_snd]
        cases hm : lookupChild cs q.2 with
        | none => rfl
        | some m =>
          simp only [Option.map_some', Option.getD_some, truncate_isDir]
          by_cases hg : (m.isDir = true ∧ level < 3)
          · rw [if_pos hg, if_pos hg]
            have hrec := ih m
              (pre ++ if q.1 = (visibleSortedNames cs).length - 1 then TREE_SPACE else TREE_BRANCH)
              (level + 1) (by omega) (by omega)
            rw [hrec]
          · rw [if_neg hg, if_neg hg]

/-- An unlistable directory always draws the single error marker line,
whatever the remaining fuel. -/
theorem build_tree_fuel_dir_false (fuel : Nat) (cs : List (String × FSNode))
    (pre : String) (level : Nat) :
    build_tree_fuel fuel (FSNode.dir false cs) pre level =
      [pre ++ TREE_LAST ++ "[Error reading directory]"] := by
  cases fuel <;> rfl

/-- Dropping the hidden-named children of the rendered directory before
drawing changes nothing: `_build_tree` never lists or descends into a
child whose name starts with a dot. -/
theorem build_tree_hidden_filter (r : Bool) (cs : List (String × FSNode))
    (pre : String) (level : Nat) :
    build_tree (FSNode.dir r (cs.filter (fun q => !strStartsWith q.1 "."))) pre level =
      build_tree (FSNode.dir r cs) pre level := by
  cases r with
  | false =>
    unfold build_tree
    rw [build_tree_fuel_dir_false, build_tree_fuel_dir_false]
  | true =>
    unfold build_tree
    simp only [build_tree_fuel]
    rw [visibleSortedNames_filter_visible]
    apply congrArg List.flatten
    apply List.map_congr_left
    intro q hq
    have hn : q.2 ∈ visibleSortedNames cs := mem_enum_snd _ q hq
    have hvis : strStartsWith q.2 "." = false := visible_not_hidden cs q.2 hn
    have hlook : lookupChild (cs.filter (fun p => !strStartsWith p.1 ".")) q.2 =
        lookupChild cs q.2 := by
      apply lookupChild_filter
      intro p _ he
      rw [he, hvis]
      rfl
    simp only [tree_line, hlook]

/-- The filesystem truncated four levels down, in which the claim-refuting
directory chain is visible. -/
def c6Fs : FSNode :=
  FSNode.dir true
    [("a", FSNode.dir true
      [("b", FSNode.dir true
        [("c", FSNode.dir true
          [("d", FSNode.dir true
            [("e.txt", FSNode.file "x")])])])])]

/-- **C6 counterexample.** `_build_tree` renders `d`, an entry four levels
below the rendered root (`a/b/c/d`): the `level < 3` guard still lists
the children of a depth-3 directory, so entries more than 3 levels below
the root do appear. The depth-5 entry `e.txt` is absent: the true cutoff
is four levels, not three. -/
theorem c6_counterexample :
    build_tree c6Fs "" 0 =
      [TREE_LAST ++ "a/",
       TREE_SPACE ++ TREE_LAST ++ "b/",
       TREE_SPACE ++ TREE_SPACE ++ TREE_LAST ++ "c/",
       TREE_SPACE ++ TREE_SPACE ++ TREE_SPACE ++ TREE_LAST ++ "d/"] := by
  rfl

/-- **C6.** The amended tree-rendering guarantees: (1) the drawing only
depends on the filesystem down to `4 - level` levels below the rendered
root, so entries deeper than four levels below it are never rendered (the
source's `level < 3` guard still lists the children of depth-3
directories, giving a four-level cutoff, not three); (2) hidden-named
children of the listed directory are neither listed nor descended into;
(3) the sibling names of each rendered directory appear sorted by the
code-point order; (4) every rendered name is dot-free; (5) a directory
that cannot be read yields the single error marker line instead of being
descended into. -/
theorem c6_tree_depth_hidden_sorted_unreadable :
    (∀ (node : FSNode) (pre : String) (level : Nat), level ≤ 3 →
      build_tree node pre level =
        build_tree_fuel (4 - level) (truncate (4 - level) node) pre level) ∧
    (∀ (r : Bool) (cs : List (String × FSNode)) (pre : String) (level : Nat),
      build_tree (FSNode.dir r (cs.filter (fun q => !strStartsWith q.1 "."))) pre level =
        build_tree (FSNode.dir r cs) pre level) ∧
    (∀ cs : List (String × FSNode), List.Sorted pyStrLeRel (visibleSortedNames cs)) ∧
    (∀ (cs : List (String × FSNode)) (n : String),
      n ∈ visibleSortedNames cs → strStartsWith n "." = false) ∧
    (∀ (cs : List (String × FSNode)) (pre : String) (level : Nat),
      build_tree (FSNode.dir false cs) pre level =
        [pre ++ TREE_LAST ++ "[Error reading directory]"]) := by
  refine ⟨?_, build_tree_hidden_filter, ?_, visible_not_hidden, ?_⟩
  · intro node pre level hlevel
    unfold build_tree
    exact build_tree_fuel_truncate (4 - level) node pre level (by omega) (by omega)
  · intro cs
    exact List.sorted_insertionSort pyStrLeRel _
  · intro cs pre level
    exact build_tree_fuel_dir_false (4 - level) cs pre level

/-- Concrete instance of the C6 depth bound and visibility facts. -/
theorem c6_tree_depth_hidden_sorted_unreadable_witness :
    build_tree c6Fs "" 0 = build_tree_fuel 4 (truncate 4 c6Fs) "" 0 ∧
    strStartsWith "b" "." = false := by
  constructor
  · exact c6_tree_depth_hidden_sorted_unreadable.1 c6Fs "" 0 (by decide)
  · exact c6_tree_depth_hidden_sorted_unreadable.2.2.2.1
      [("b", FSNode.file ""), (".h", FSNode.file "")] "b" (by decide)

/-! ## Claim C4 -/

/-- A string that begins with a non-empty part is not empty. -/
theorem append_ne_empty_left (a b : String) (h : a ≠ "") :
    a ++ b ≠ "" := by
  intro he
  apply h
  have hd := congrArg String.data he
  rw [String.data_append] at hd
  exact String.ext (List.append_eq_nil.mp hd).1

/-- C4: `navigate` is atomic — whenever `_handle_cd` fails (empty
argument, not found, not a directory, permission denied; the returned
text is non-empty exactly on failure), `current_dir` and the cache are
exactly what they were; on success (empty returned text) `current_dir`
becomes the resolved path and the cache is fully rebuilt for it. -/
theorem c4_navigate_failure_unchanged_success_refresh
    (fs : FSNode) (home : List String) (st : PState) (path : String) :
    ((handle_cd fs home st path).1.1 ≠ "" → (handle_cd fs home st path).2 = st) ∧
    ((handle_cd fs home st path).1.1 = "" →
      (handle_cd fs home st path).2 =
        { current_dir := resolve_cd home st.current_dir path,
          file_cache := update_file_cache fs (resolve_cd home st.current_dir path) }) := by
  unfold handle_cd
  split
  · exact ⟨fun _ => rfl,
      fun h => absurd h (show ("Usage: cd <directory>" : String) ≠ "" by decide)⟩
  · split
    · exact ⟨fun _ => rfl,
        fun h => absurd h (by (repeat apply append_ne_empty_left); decide)⟩
    · exact ⟨fun _ => rfl,
        fun h => absurd h (by (repeat apply append_ne_empty_left); decide)⟩
    · exact ⟨fun _ => rfl,
        fun h => absurd h (by (repeat apply append_ne_empty_left); decide)⟩
    · exact ⟨fun hne => absurd rfl hne, fun _ => rfl⟩

/-- C4 witness: a failing navigation (`nope` does not exist) leaves the
state unchanged; a successful one (`sub`) sets the resolved path and
rebuilds the cache. -/
theorem c4_navigate_failure_unchanged_success_refresh_witness :
    (handle_cd exFs exHome exSt "nope").2 = exSt ∧
    (handle_cd exFs exHome exSt "sub").2 =
      { current_dir := ["sub"], file_cache := update_file_cache exFs ["sub"] } :=
  ⟨(c4_navigate_failure_unchanged_success_refresh exFs exHome exSt "nope").1
      (by decide),
   (c4_navigate_failure_unchanged_success_refresh exFs exHome exSt "sub").2 rfl⟩

end PlexCode
